import Mathlib

/-!
Verification of the resume document-parser pipeline (normalization and
section-detection components) against its natural-language specification.

The Python sources are shallowly embedded: strings are modelled as
`String`/`List Char` (ASCII-faithful for the character classes the code
uses), Python `datetime.date` as a `Date` record of integers, and the
delegated external capabilities (the `dateparser` library, the standard
library `datetime.strptime`, the `rapidfuzz` similarity scorer, compiled
regex search for configured section patterns) as explicit function
parameters, since they are third-party code outside this repository.
Everything written by the repository itself — cleaning passes, fallback
regex ladders, fuzzy-match plumbing, the section state machine, duration
arithmetic — is embedded concretely, following the Python control flow.
-/

/-! ## Basic character and string helpers (Python semantics, ASCII range) -/

/-- Python whitespace characters recognised by `str.strip` / `\s` (ASCII range). -/
def isPySpace (c : Char) : Bool :=
  c = ' ' || c = '\t' || c = '\n' || c = '\x0d' || c = '\x0b' || c = '\x0c'

/-- ASCII lower-casing, the effect of Python `str.lower` on ASCII text. -/
def lowerChar (c : Char) : Char :=
  if 'A' ≤ c ∧ c ≤ 'Z' then Char.ofNat (c.toNat + 32) else c

def lowerList (cs : List Char) : List Char := cs.map lowerChar

/-- A regex word character `\w` (ASCII range): alphanumeric or underscore. -/
def isWordChar (c : Char) : Bool := c.isAlphanum || c = '_'

/-- Python `str.strip()` on a character list. -/
def pyStrip (cs : List Char) : List Char :=
  ((cs.dropWhile isPySpace).reverse.dropWhile isPySpace).reverse

/-- Python `str.strip()` at `String` level. -/
def pyStripS (s : String) : String := String.mk (pyStrip s.data)

/-- Substring containment, Python's `needle in haystack`. -/
def containsSub (needle : List Char) : List Char → Bool
  | [] => needle.isEmpty
  | c :: rest => needle.isPrefixOf (c :: rest) || containsSub needle rest

/-- Split a character list on every occurrence of a separator character,
Python `str.split(sep)` for a one-character separator. -/
def splitOnChar (sep : Char) : List Char → List (List Char)
  | [] => [[]]
  | c :: rest =>
    if c = sep then [] :: splitOnChar sep rest
    else match splitOnChar sep rest with
      | [] => [[c]]
      | p :: ps => (c :: p) :: ps

/-- Split on any character from a set, Python `re.split(r'[xy]', s)`. -/
def splitOnCharSet (seps : List Char) : List Char → List (List Char)
  | [] => [[]]
  | c :: rest =>
    if seps.contains c then [] :: splitOnCharSet seps rest
    else match splitOnCharSet seps rest with
      | [] => [[c]]
      | p :: ps => (c :: p) :: ps

/-- Join string parts with a separator character (Python `sep.join`). -/
def joinWith (sep : Char) : List (List Char) → List Char
  | [] => []
  | [p] => p
  | p :: ps => p ++ sep :: joinWith sep ps

/-- Numeric value of a list of ASCII digits. -/
def digitsVal (cs : List Char) : Nat :=
  cs.foldl (fun acc c => 10 * acc + (c.toNat - '0'.toNat)) 0

/-- Scanner for `digitRuns`: `acc` holds the digits of the run in progress,
in reverse. -/
def digitRunsGo : List Char → List Char → List (List Char)
  | [], [] => []
  | [], acc => [acc.reverse]
  | c :: rest, acc =>
    if c.isDigit then digitRunsGo rest (c :: acc)
    else match acc with
      | [] => digitRunsGo rest []
      | _ => acc.reverse :: digitRunsGo rest []

/-- Maximal runs of digits in a string, Python `re.findall(r'\d+', s)`. -/
def digitRuns (cs : List Char) : List (List Char) := digitRunsGo cs []

/-! ## Dates (Python `datetime.date`) -/

/-- A calendar date; fields are kept as integers for arithmetic. -/
structure Date where
  year : Int
  month : Int
  day : Int
deriving DecidableEq, Repr

/-- Gregorian leap-year rule. -/
def isLeapYear (y : Int) : Bool := (y % 4 = 0 ∧ y % 100 ≠ 0) ∨ y % 400 = 0

/-- Days in a month of a given year. -/
def daysInMonth (y m : Int) : Int :=
  if m = 1 ∨ m = 3 ∨ m = 5 ∨ m = 7 ∨ m = 8 ∨ m = 10 ∨ m = 12 then 31
  else if m = 4 ∨ m = 6 ∨ m = 9 ∨ m = 11 then 30
  else if isLeapYear y then 29
  else 28

/-- Validity as accepted by Python's `datetime.date(y, m, d)` constructor. -/
def validDate (y m d : Int) : Prop :=
  1 ≤ y ∧ y ≤ 9999 ∧ 1 ≤ m ∧ m ≤ 12 ∧ 1 ≤ d ∧ d ≤ daysInMonth y m

instance (y m d : Int) : Decidable (validDate y m d) := by
  unfold validDate; infer_instance

/-- `datetime.date(y, m, d)` with the `ValueError` modelled as `none`. -/
def mkDate (y m d : Int) : Option Date :=
  if validDate y m d then some ⟨y, m, d⟩ else none

/-- Python `date` comparison (lexicographic on year, month, day). -/
def Date.ltProp (a b : Date) : Prop :=
  a.year < b.year ∨ (a.year = b.year ∧
    (a.month < b.month ∨ (a.month = b.month ∧ a.day < b.day)))

instance : LT Date := ⟨Date.ltProp⟩

instance (a b : Date) : Decidable (a < b) := by
  show Decidable (Date.ltProp a b); unfold Date.ltProp; infer_instance

def Date.valid (d : Date) : Prop := validDate d.year d.month d.day

/-! ## DateNormalizer (src/normalization/date_normalizer.py)

External capabilities are passed in a `DNEnv`: `dp` models
`dateparser.parse` (returning the year/month/day of the parsed datetime),
`strp` models `datetime.strptime(s, fmt).date()`, and `today` models
`date.today()`. -/

structure DNEnv where
  dp : String → Option (Int × Int × Int)
  strp : String → String → Option Date
  today : Date

/-- The keyword alternatives of `\b(present|current|ongoing|now)\b`. -/
def presentWords : List (List Char) :=
  ["present".data, "current".data, "ongoing".data, "now".data]

/-- Whether a position is at a `\b` boundary given the previous character. -/
def boundaryBefore : Option Char → Bool
  | none => true
  | some c => !isWordChar c

/-- Whether the end of a match sits at a `\b` boundary. -/
def boundaryAfter : List Char → Bool
  | [] => true
  | c :: _ => !isWordChar c

/-- A keyword matches at the head of (already lower-cased) `cs` as a whole word. -/
def wordAtHead (w cs : List Char) : Bool :=
  w.isPrefixOf cs && boundaryAfter (cs.drop w.length)

/-- `re.search(r'\b(present|current|ongoing|now)\b', s, re.IGNORECASE)`:
scan over the lower-cased text tracking the previous character. -/
def hasPresentAux (prev : Option Char) : List Char → Bool
  | [] => false
  | c :: rest =>
    (boundaryBefore prev && presentWords.any (fun w => wordAtHead w (c :: rest)))
      || hasPresentAux (some c) rest

def hasPresentWord (cs : List Char) : Bool := hasPresentAux none (lowerList cs)

/-- Read exactly four digits from the head of the list, returning their value
and the remaining characters. -/
def takeFourDigits : List Char → Option (Nat × List Char)
  | a :: b :: c :: d :: rest =>
    if a.isDigit && b.isDigit && c.isDigit && d.isDigit then
      some (digitsVal [a, b, c, d], rest)
    else none
  | _ => none

/-- `re.search(r'\bQ([1-4])\s*(\d{4})\b', s, re.IGNORECASE)`: leftmost match,
returning (quarter, year). -/
def quarterAux (prev : Option Char) : List Char → Option (Nat × Nat)
  | [] => none
  | c :: rest =>
    match
      (if boundaryBefore prev && (c = 'q' || c = 'Q') then
        match rest with
        | q :: rest2 =>
          if '1' ≤ q ∧ q ≤ '4' then
            match takeFourDigits (rest2.dropWhile isPySpace) with
            | some (y, rest4) =>
              if boundaryAfter rest4 then some (q.toNat - '0'.toNat, y) else none
            | none => none
          else none
        | [] => none
      else none) with
    | some r => some r
    | none => quarterAux (some c) rest

/-- Leftmost match of `(?P<month>[a-z]+)[^\d]*(?P<year>\d{4})` (IGNORECASE):
a match starting at a letter exists iff the first digit at or after it heads
a run of at least four digits; the month group is the maximal letter run. -/
def pat1Aux : List Char → Option (List Char × Nat)
  | [] => none
  | c :: rest =>
    match
      (if c.isAlpha then
        match takeFourDigits ((c :: rest).dropWhile (fun x => !x.isDigit)) with
        | some (y, _) => some (c :: rest.takeWhile Char.isAlpha, y)
        | none => none
      else none) with
    | some r => some r
    | none => pat1Aux rest

/-- One attempt of `(?P<month>\d{1,2})[^\d]*(?P<year>\d{4})` at the current
position with a fixed month-group length `len`. -/
def pat2Try (len : Nat) (cs : List Char) : Option (Nat × Nat) :=
  let monthDigits := cs.take len
  let after := cs.drop len
  match after with
  | d :: _ =>
    if d.isDigit then
      -- `[^\d]*` is forced empty; `\d{4}` must match right here
      match takeFourDigits after with
      | some (y, _) => some (digitsVal monthDigits, y)
      | none => none
    else
      match takeFourDigits (after.dropWhile (fun x => !x.isDigit)) with
      | some (y, _) => some (digitsVal monthDigits, y)
      | none => none
  | [] => none

/-- Leftmost match of `(?P<month>\d{1,2})[^\d]*(?P<year>\d{4})`, with the
greedy-then-backtrack choice of a two- or one-digit month group. -/
def pat2Aux : List Char → Option (Nat × Nat)
  | [] => none
  | c :: rest =>
    match
      (if c.isDigit then
        if (match rest with | d :: _ => d.isDigit | [] => false) then
          match pat2Try 2 (c :: rest) with
          | some r => some r
          | none => pat2Try 1 (c :: rest)
        else pat2Try 1 (c :: rest)
      else none) with
    | some r => some r
    | none => pat2Aux rest

/-- Leftmost match of `(?P<year>\d{4})`: first run of four consecutive digits. -/
def pat3Aux : List Char → Option Nat
  | [] => none
  | c :: rest =>
    match takeFourDigits (c :: rest) with
    | some (y, _) => some y
    | none => pat3Aux rest

/-- `self.month_map`, keyed by lower-case month token. -/
def monthMap : List (List Char × Nat) :=
  [("jan".data, 1), ("january".data, 1), ("feb".data, 2), ("february".data, 2),
   ("mar".data, 3), ("march".data, 3), ("apr".data, 4), ("april".data, 4),
   ("may".data, 5), ("jun".data, 6), ("june".data, 6), ("jul".data, 7),
   ("july".data, 7), ("aug".data, 8), ("august".data, 8), ("sep".data, 9),
   ("september".data, 9), ("oct".data, 10), ("october".data, 10),
   ("nov".data, 11), ("november".data, 11), ("dec".data, 12), ("december".data, 12)]

def lookupLC (key : List Char) : List (List Char × Nat) → Option Nat
  | [] => none
  | (k, v) :: rest => if k = key then some v else lookupLC key rest

/-- `month_map.get(month_str) or month_map.get(month_str[:3])`. -/
def monthLookup (run : List Char) : Option Nat :=
  let ms := lowerList run
  match lookupLC ms monthMap with
  | some m => some m
  | none => lookupLC (ms.take 3) monthMap

/-- The year-only tail of `_fallback_parse`: exactly one digit run, of length
four. -/
def yearOnlyParse (cs : List Char) : Option Date :=
  match digitRuns cs with
  | [r] => if r.length = 4 then mkDate (digitsVal r) 1 1 else none
  | _ => none

/-- `DateNormalizer._fallback_parse`.  The quarter branch returns `None` on a
`ValueError`; each pattern of the ladder falls through (`continue`) when its
month group is unmappable/out of range or the date constructor fails. -/
def fallbackParse (cs : List Char) : Option Date :=
  match quarterAux none cs with
  | some (q, y) => mkDate (Int.ofNat y) (Int.ofNat ((q - 1) * 3 + 1)) 1
  | none =>
    -- pattern 1: named month
    let step2 : Option Date :=
      -- pattern 2: numeric month
      let step3 : Option Date :=
        -- pattern 3: bare year, then the year-only fallback
        match pat3Aux cs with
        | some y =>
          match mkDate (Int.ofNat y) 1 1 with
          | some d => some d
          | none => yearOnlyParse cs
        | none => yearOnlyParse cs
      match pat2Aux cs with
      | some (mn, y) =>
        if 1 ≤ mn ∧ mn ≤ 12 then
          match mkDate (Int.ofNat y) (Int.ofNat mn) 1 with
          | some d => some d
          | none => step3
        else step3
      | none => step3
    match pat1Aux cs with
    | some (run, y) =>
      match monthLookup run with
      | some m =>
        match mkDate (Int.ofNat y) (Int.ofNat m) 1 with
        | some d => some d
        | none => step2
      | none => step2
    | none => step2

/-- `self.date_formats`. -/
def dateFormats : List String :=
  ["%Y-%m-%d", "%d-%m-%Y", "%m/%d/%Y", "%B %Y", "%b %Y", "%Y"]

/-- `DateNormalizer._parse_with_formats`: first format accepted by `strptime`. -/
def parseWithFormats (env : DNEnv) (s : String) : Option Date :=
  (dateFormats.map (fun fmt => env.strp fmt s)).foldr
    (fun r acc => match r with | some d => some d | none => acc) none

namespace DateNormalizer

/-- `DateNormalizer.normalize`. -/
def normalize (env : DNEnv) (s : String) : Option Date :=
  if s = "" then none
  else if hasPresentWord s.data then some env.today
  else
    let rest : Option Date :=
      match fallbackParse s.data with
      | some d => some d
      | none => parseWithFormats env s
    match env.dp s with
    | some (y, m, d) =>
      match mkDate y m d with
      | some dt => some dt
      | none => rest
    | none => rest

end DateNormalizer

/-! ### `DateNormalizer.extract_period`: delimiter splitting (`re.split`) -/

/-- Try to match one delimiter occurrence at the head of `cs`:
`\s+SEP\s+` when `needWs` is true (the `to` and `-` delimiters), or
`\s*SEP\s*` when false (the en dash and em dash delimiters).  Returns the suffix
after the match.  The separators start with a non-space character, so
maximal-run whitespace consumption coincides with the regex's greedy
matching. -/
def trySplitAt (needWs : Bool) (sep : List Char) (cs : List Char) : Option (List Char) :=
  let r1 := cs.dropWhile isPySpace
  if needWs && r1.length = cs.length then none
  else if sep.isPrefixOf r1 then
    let r2 := r1.drop sep.length
    let r3 := r2.dropWhile isPySpace
    if needWs && r3.length = r2.length then none else some r3
  else none

/-- `re.split` on one delimiter pattern, scanning left to right for
non-overlapping leftmost matches.  Structured with fuel (one unit per
consumed character) so that it is structurally recursive; every call site
supplies enough fuel, and a genuine match always consumes at least one
character, so the fuel-exhaustion branch is unreachable. -/
def splitGo (needWs : Bool) (sep : List Char) : Nat → List Char → List Char → List (List Char)
  | _, acc, [] => [acc.reverse]
  | 0, acc, cs => [acc.reverse ++ cs]
  | fuel + 1, acc, c :: rest =>
    match trySplitAt needWs sep (c :: rest) with
    | some r => acc.reverse :: splitGo needWs sep fuel [] r
    | none => splitGo needWs sep fuel (c :: acc) rest

/-- `re.split(pattern, text)` for one of the four delimiter patterns. -/
def pySplit (needWs : Bool) (sep : List Char) (cs : List Char) : List (List Char) :=
  splitGo needWs sep (cs.length + 1) [] cs

/-- The delimiter patterns of `extract_period`, in source order:
`\s+to\s+`, `\s+-\s+`, `\s*–\s*`, `\s*—\s*`. -/
def periodDelims : List (Bool × List Char) :=
  [(true, "to".data), (true, "-".data), (false, "–".data), (false, "—".data)]

/-- First delimiter (in source order) whose split yields exactly two parts. -/
def firstTwoSplit (t : List Char) : Option (List Char × List Char) :=
  periodDelims.foldr
    (fun (d : Bool × List Char) acc =>
      match pySplit d.1 d.2 t with
      | [a, b] => some (a, b)
      | _ => acc)
    none

namespace DateNormalizer

/-- `DateNormalizer.extract_period`. -/
def extract_period (env : DNEnv) (text : String) : Option Date × Option Date :=
  let t := lowerList text.data
  match firstTwoSplit t with
  | some (a, b) =>
    (normalize env (String.mk (pyStrip a)), normalize env (String.mk (pyStrip b)))
  | none =>
    let d := normalize env (String.mk t)
    (d, d)

end DateNormalizer

/-! ## ExperienceNormalizer.calculate_duration
(src/normalization/experience_normalizer.py)

`dateutil.relativedelta(end, start)` is modelled by its documented algorithm:
take the raw year*12+month difference, add that many months to `start`
(clamping the day to the target month's length, as Python date arithmetic
does), decrement while the result overshoots `end`, and count leftover days.
The loop is given fuel to make it structural; for `start ≤ end` it decrements
at most once, so the fuel is never exhausted. -/

/-- `start + relativedelta(months=k)`: month arithmetic with day clamping.
Python's `//`/`%` floor to a non-negative remainder for a positive modulus,
which coincides with Lean's integer `/` and `%` here. -/
def addMonthsClamped (d : Date) (k : Int) : Date :=
  let t := d.year * 12 + (d.month - 1) + k
  let y := t / 12
  let m := t % 12 + 1
  ⟨y, m, min d.day (daysInMonth y m)⟩

/-- The raw month difference `(dt1.year - dt2.year) * 12 + (dt1.month - dt2.month)`. -/
def monthDiff (start endd : Date) : Int :=
  (endd.year * 12 + endd.month) - (start.year * 12 + start.month)

/-- The `while dt1 < dtm: months -= 1` loop of `relativedelta` (for `dt1 ≥ dt2`). -/
def relMonthsGo (start endd : Date) : Nat → Int → Int
  | 0, m => m
  | fuel + 1, m =>
    if endd < addMonthsClamped start m then relMonthsGo start endd fuel (m - 1) else m

namespace ExperienceNormalizer

/-- `ExperienceNormalizer.calculate_duration` on two `date` values (the
branch taken when `normalize` passes the already-normalized dates through):
`0` when the start is after the end, otherwise the `relativedelta` month
count plus one extra month when leftover days remain. -/
def calculate_duration (start endd : Date) : Int :=
  if endd < start then 0
  else
    let m := relMonthsGo start endd ((monthDiff start endd).toNat + 2) (monthDiff start endd)
    let dtm := addMonthsClamped start m
    m + (if dtm < endd then 1 else 0)

/-- Lines 256–258 of `ExperienceNormalizer.normalize`: `duration_months` is
computed exactly when both normalized dates are available. -/
def durationField (startNorm endNorm : Option Date) : Option Int :=
  match startNorm, endNorm with
  | some s, some e => some (calculate_duration s e)
  | _, _ => none

end ExperienceNormalizer

/-! ## SkillNormalizer (src/normalization/skill_normalizer.py)

The ontology and the configured category-label patterns are data parameters
(Python reads them from JSON/YAML at construction time); the `rapidfuzz`
`fuzz.WRatio` similarity scorer is an abstract function parameter with
scores modelled as natural numbers on the 0–100 scale. -/

/-- Global removal of `\([^)]*\)` (Python `re.sub(r'\([^)]*\)', '', s)`),
as a one-pass scanner: `buf` buffers the characters after an as yet
unclosed `(` (in reverse); on the first `)` the whole buffered group is
discarded, and an unclosed trailing group is kept verbatim. -/
def removeParensGo : List Char → Option (List Char) → List Char
  | [], none => []
  | [], some buf => '(' :: buf.reverse
  | c :: rest, none =>
    if c = '(' then removeParensGo rest (some [])
    else c :: removeParensGo rest none
  | c :: rest, some buf =>
    if c = ')' then removeParensGo rest none
    else removeParensGo rest (some (c :: buf))

def removeParens (cs : List Char) : List Char := removeParensGo cs none

/-- `re.sub(f'^{label}:\\s*', '', skill)` for one configured category label
(labels are plain words, so the interpolation is a literal match). -/
def stripCategoryLabel (cs : List Char) (label : List Char) : List Char :=
  if (label ++ [':']).isPrefixOf cs then
    (cs.drop (label.length + 1)).dropWhile isPySpace
  else cs

structure SkillNormalizer where
  ontology : List (String × List String)
  categoryLabels : List String
  threshold : Nat
  scorer : String → String → Nat

namespace SkillNormalizer

/-- `SkillNormalizer._create_skill_index`: canonicals and variants in
insertion order, first occurrence kept. -/
def skillIndex (sn : SkillNormalizer) : List String :=
  sn.ontology.foldl
    (fun idx cv =>
      let idx := if idx.contains cv.1 then idx else idx ++ [cv.1]
      cv.2.foldl (fun idx v => if idx.contains v then idx else idx ++ [v]) idx)
    []

/-- Ordered-dict insertion: replace in place if the key exists, else append. -/
def insertReplace : List (String × String) → String → String → List (String × String)
  | [], k, v => [(k, v)]
  | (k', v') :: rest, k, v =>
    if k' = k then (k, v) :: rest else (k', v') :: insertReplace rest k v

/-- `self.lower_index = {s.lower(): s for s in self.skill_index}` (later
entries overwrite earlier ones). -/
def lowerIndex (sn : SkillNormalizer) : List (String × String) :=
  (skillIndex sn).foldl
    (fun m s => insertReplace m (String.mk (lowerList s.data)) s) []

def lookupAssoc (m : List (String × String)) (k : String) : Option String :=
  match m.find? (fun p => p.1 = k) with
  | some p => some p.2
  | none => none

/-- `SkillNormalizer._get_canonical`. -/
def getCanonical (ont : List (String × List String)) (skill : String) : String :=
  match ont.find? (fun cv => cv.1 = skill || cv.2.contains skill) with
  | some cv => cv.1
  | none => skill

/-- The best candidate of a fuzzy search: the first choice attaining the
maximal score. -/
def fuzzBest (scorer : String → String → Nat) (query : String)
    (choices : List String) : Option (String × Nat) :=
  choices.foldl
    (fun acc c =>
      match acc with
      | none => some (c, scorer query c)
      | some (b, s) => if scorer query c > s then some (c, scorer query c) else some (b, s))
    none

/-- `rapidfuzz.process.extractOne(query, choices, scorer, score_cutoff)`:
the best candidate, provided its score reaches the cutoff. -/
def extractOne (scorer : String → String → Nat) (query : String)
    (choices : List String) (cutoff : Nat) : Option (String × Nat) :=
  match fuzzBest scorer query choices with
  | some (b, s) => if cutoff ≤ s then some (b, s) else none
  | none => none

/-- The cleaning stage of `SkillNormalizer.normalize`: category-label
removal, parenthetical removal, strip. -/
def clean (sn : SkillNormalizer) (skill : String) : List Char :=
  pyStrip (removeParens (sn.categoryLabels.foldl (fun cs lab => stripCategoryLabel cs lab.data) skill.data))

/-- `SkillNormalizer.normalize`. -/
def normalize (sn : SkillNormalizer) (skill : String) : String :=
  if skill = "" then ""
  else if pyStrip skill.data = [] then skill
  else
    let sk := clean sn skill
    match lookupAssoc (lowerIndex sn) (String.mk (lowerList sk)) with
    | some orig => getCanonical sn.ontology orig
    | none =>
      match extractOne sn.scorer (String.mk sk) (skillIndex sn) sn.threshold with
      | some (m, _) => getCanonical sn.ontology m
      | none => String.mk sk

end SkillNormalizer

/-- A scorer for concrete evaluations where fuzzy matching never fires. -/
def zeroScorer : String → String → Nat := fun _ _ => 0

-- the counterexample configuration for idempotence: a canonical that is
-- itself a category-labelled phrase
def snLabels : SkillNormalizer :=
  ⟨[("Languages: Python", []), ("Python", [])], ["Languages"], 80, zeroScorer⟩

/-! ### `SkillNormalizer.normalize_list` -/

/-- `re.sub(r'\s+', ' ', s)`: collapse every whitespace run to one space. -/
def collapseWsSt (inSpace : Bool) : List Char → List Char
  | [] => []
  | c :: rest =>
    if isPySpace c then
      if inSpace then collapseWsSt true rest else ' ' :: collapseWsSt true rest
    else c :: collapseWsSt false rest

def collapseWs (cs : List Char) : List Char := collapseWsSt false cs

/-- `re.sub(r'^[-•*]\s*', '', part)`: one leading bullet character and the
whitespace after it. -/
def stripBullet (cs : List Char) : List Char :=
  match cs with
  | c :: rest =>
    if c = '-' || c = '•' || c = '*' then rest.dropWhile isPySpace else cs
  | [] => []

/-- `re.findall(r'\((.*?)\)', part)`: the (non-greedy) groups between a `(`
and the next `)`.  The inputs here have had their whitespace collapsed, so
they contain no newline and `.` matches every character. -/
def parenGroupsGo : List Char → Option (List Char) → List (List Char)
  | [], _ => []
  | c :: rest, none =>
    if c = '(' then parenGroupsGo rest (some []) else parenGroupsGo rest none
  | c :: rest, some buf =>
    if c = ')' then buf.reverse :: parenGroupsGo rest none
    else parenGroupsGo rest (some (c :: buf))

def parenGroups (cs : List Char) : List (List Char) := parenGroupsGo cs none

/-- `skill.split(':', 1)[1]`. -/
def afterFirstColon : List Char → List Char
  | [] => []
  | c :: rest => if c = ':' then rest else afterFirstColon rest

/-- Python `str.split(delim)` for a non-empty (possibly multi-character)
delimiter, splitting at every non-overlapping leftmost occurrence.  Fueled
to stay structurally recursive; the fuel is always sufficient. -/
def splitOnSubGo (delim : List Char) : Nat → List Char → List Char → List (List Char)
  | _, acc, [] => [acc.reverse]
  | 0, acc, cs => [acc.reverse ++ cs]
  | fuel + 1, acc, c :: rest =>
    if delim.isPrefixOf (c :: rest) then
      acc.reverse :: splitOnSubGo delim fuel [] ((c :: rest).drop delim.length)
    else splitOnSubGo delim fuel (c :: acc) rest

def splitOnSub (delim cs : List Char) : List (List Char) :=
  splitOnSubGo delim (cs.length + 1) [] cs

/-- The category-content delimiters tried in order: `,` `&` `|` `/` `and`
(plain substring tests, as in the source). -/
def skillDelims : List (List Char) :=
  [",".data, "&".data, "|".data, "/".data, "and".data]

/-- Lines 103–112: split the after-colon content on the first delimiter
found in it, stripping each part; no delimiter gives the stripped content. -/
def categoryParts (content : List Char) : List (List Char) :=
  match skillDelims.find? (fun d => containsSub d content) with
  | some d => (splitOnSub d content).map pyStrip
  | none => [pyStrip content]

def stopWords : List String :=
  ["and", "or", "with", "using", "in", "on", "for", "to", "of", "the", "a", "an"]

/-- `re.search(r'[a-zA-Z0-9]', s)`. -/
def hasAsciiAlnum (cs : List Char) : Bool := cs.any Char.isAlphanum

/-! Python's `sorted` on strings orders by code points.  `strLeb` is that
order (≤) on character lists; the Python set is modelled as a list with
membership-tested insertion, whose representation order never escapes
because `normalize_list` sorts the final collection. -/

def strLeb : List Char → List Char → Bool
  | [], _ => true
  | _ :: _, [] => false
  | a :: as, b :: bs => if a = b then strLeb as bs else decide (a.toNat < b.toNat)

def strLeb_total (a : List Char) : ∀ b, strLeb a b = true ∨ strLeb b a = true := by
  induction a with
  | nil => intro b; left; rfl
  | cons x as ih =>
    intro b
    cases b with
    | nil => right; rfl
    | cons y bs =>
      by_cases hxy : x = y
      · subst hxy
        simpa [strLeb] using ih bs
      · have hne : x.toNat ≠ y.toNat := fun h => hxy (Char.ext (UInt32.toNat.inj h))
        rcases Nat.lt_or_ge x.toNat y.toNat with h | h
        · left; simp [strLeb, hxy, h]
        · right
          have h' : y.toNat < x.toNat := by omega
          simp [strLeb, Ne.symm hxy, h']

def strLeb_trans (a : List Char) :
    ∀ b c, strLeb a b = true → strLeb b c = true → strLeb a c = true := by
  induction a with
  | nil => intro b c _ _; rfl
  | cons x as ih =>
    intro b c hab hbc
    cases b with
    | nil => simp [strLeb] at hab
    | cons y bs =>
      cases c with
      | nil => simp [strLeb] at hbc
      | cons z cs =>
        by_cases hxy : x = y <;> by_cases hyz : y = z
        · subst hxy; subst hyz
          simp only [strLeb, if_pos rfl] at hab hbc ⊢
          exact ih bs cs hab hbc
        · subst hxy
          simp only [strLeb, if_pos rfl] at hab
          simpa [strLeb, hyz] using hbc
        · subst hyz
          simp only [strLeb, if_pos rfl] at hbc
          simpa [strLeb, hxy] using hab
        · simp only [strLeb, if_neg hxy, decide_eq_true_eq] at hab
          simp only [strLeb, if_neg hyz, decide_eq_true_eq] at hbc
          have hxz : x.toNat < z.toNat := Nat.lt_trans hab hbc
          have hne : x ≠ z := by
            intro h; subst h; omega
          simp [strLeb, hne, hxz]

def strLeb_antisymm (a : List Char) :
    ∀ b, strLeb a b = true → strLeb b a = true → a = b := by
  induction a with
  | nil =>
    intro b _ hba
    cases b with
    | nil => rfl
    | cons y bs => simp [strLeb] at hba
  | cons x as ih =>
    intro b hab hba
    cases b with
    | nil => simp [strLeb] at hab
    | cons y bs =>
      by_cases hxy : x = y
      · subst hxy
        simp only [strLeb, if_pos rfl] at hab hba
        rw [ih bs hab hba]
      · simp only [strLeb, if_neg hxy, decide_eq_true_eq] at hab
        simp only [strLeb, if_neg (Ne.symm hxy), decide_eq_true_eq] at hba
        omega

/-- Python string comparison (code-point lexicographic `≤`). -/
def pyLe (a b : String) : Prop := strLeb a.data b.data = true

instance : DecidableRel pyLe := fun a b => by unfold pyLe; infer_instance

instance : IsTotal String pyLe := ⟨fun a b => strLeb_total a.data b.data⟩

instance : IsTrans String pyLe :=
  ⟨fun a b c hab hbc => strLeb_trans a.data b.data c.data hab hbc⟩

instance : IsAntisymm String pyLe := by
  constructor
  intro a b hab hba
  obtain ⟨da⟩ := a
  obtain ⟨db⟩ := b
  exact congrArg String.mk (strLeb_antisymm da db hab hba)

/-- Python `set.add`, modelled on a representation list: no-op when the
element is present, append otherwise. -/
def setInsert (l : List String) (x : String) : List String :=
  if x ∈ l then l else l ++ [x]

namespace SkillNormalizer

/-- `normalized = self.normalize(x); if normalized: normalized_skills.add(normalized)`:
the element pushed for one normalize call (empty-string results are dropped). -/
def pushNorm (sn : SkillNormalizer) (out : List String) (t : String) : List String :=
  let n := sn.normalize t
  if n ≠ "" then out ++ [n] else out

/-- The sequence of elements one input item adds to the set (the body of
the `for skill in skills` loop of `normalize_list`). -/
def itemElems (sn : SkillNormalizer) (skill : String) : List String :=
  if pyStrip skill.data = [] then []
  else
    let sk := pyStrip skill.data
    if sk.length ≤ 1 || !hasAsciiAlnum sk then []
    else
      let parts := if sk.contains ':' then categoryParts (afterFirstColon sk) else [sk]
      parts.foldl
        (fun out part0 =>
          let part1 := pyStrip part0
          if part1.isEmpty || part1.length ≤ 1 then out
          else
            let part := collapseWs (stripBullet part1)
            if part.contains '(' && part.contains ')' then
              let main := pyStrip (removeParens part)
              let out1 := if main ≠ [] then pushNorm sn out (String.mk main) else out
              (parenGroups part).foldl
                (fun o g =>
                  ((splitOnCharSet [',', '&'] g).map pyStrip).foldl
                    (fun o sp =>
                      if sp ≠ [] ∧ 1 < sp.length then pushNorm sn o (String.mk sp) else o)
                    o)
                out1
            else pushNorm sn out (String.mk part))
        []

/-- `SkillNormalizer.normalize_list`: set accumulation, stop-word filter,
`sorted(...)`. -/
def normalize_list (sn : SkillNormalizer) (skills : List String) : List String :=
  if skills = [] then []
  else
    let collected := skills.foldl (fun acc sk => (itemElems sn sk).foldl setInsert acc) []
    let kept := collected.filter
      (fun s => !(stopWords.contains (String.mk (lowerList s.data))))
    List.insertionSort pyLe kept

end SkillNormalizer

def snEmpty : SkillNormalizer := ⟨[], [], 80, zeroScorer⟩

/-! ## EducationNormalizer (src/normalization/education_normalizer.py)
and the ontology loaders (claim C1)

File I/O is abstracted by a `SourceState`: the configured path may point to
a missing file, a file whose contents are not valid JSON, or a valid
mapping. -/

inductive SourceState where
  | missing
  | malformed
  | valid (m : List (String × List String))

inductive JsonError where
  | decodeError
deriving DecidableEq

/-- `SkillNormalizer._load_ontology`: `FileNotFoundError` is caught and gives
an empty mapping, but `json.JSONDecodeError` is re-raised to the caller
(`except json.JSONDecodeError as e: raise e`). -/
def load_ontology : SourceState → Except JsonError (List (String × List String))
  | .missing => .ok []
  | .malformed => .error .decodeError
  | .valid m => .ok m

/-- `EducationNormalizer._load_mapping`: a missing path is detected by
`os.path.exists` (logged, empty mapping) and both `FileNotFoundError` and
`json.JSONDecodeError` are caught (logged, empty mapping); it never raises. -/
def load_mapping : SourceState → List (String × List String)
  | .missing => []
  | .malformed => []
  | .valid m => m

structure EducationNormalizer where
  institutionMapping : List (String × List String)
  institutionIndicators : List String
  scorer : String → String → Nat

/-- `re.sub(r'[^\w\s&.,-]', '', name)`: keep word characters, whitespace and
`& . , -`. -/
def cleanInstChars (cs : List Char) : List Char :=
  cs.filter (fun c => isWordChar c || isPySpace c || c = '&' || c = '.' || c = ',' || c = '-')

/-- Try each indicator alternative, in order, at the head of `cs`
(case-insensitive), requiring a `\b` after it and consuming an optional
trailing dot.  Returns the last consumed character (for subsequent
word-boundary tracking) and the rest. -/
def matchIndicator : List (List Char) → List Char → Option (Char × List Char)
  | [], _ => none
  | ind :: more, cs =>
    if ind ≠ [] ∧ lowerList (cs.take ind.length) = lowerList ind
        ∧ boundaryAfter (cs.drop ind.length) then
      match cs.drop ind.length with
      | '.' :: r2 => some ('.', r2)
      | r2 => some (((cs.take ind.length).getLast?).getD ' ', r2)
    else matchIndicator more cs

/-- `re.sub(f'\\b({indicators})\\b\\.?', '', clean_name, flags=re.IGNORECASE)`:
remove every non-overlapping leftmost indicator occurrence.  Fueled to stay
structural; a match always consumes at least one character. -/
def removeIndicatorsGo (inds : List (List Char)) :
    Nat → Option Char → List Char → List Char
  | _, _, [] => []
  | 0, _, cs => cs
  | fuel + 1, prev, c :: rest =>
    match (if boundaryBefore prev then matchIndicator inds (c :: rest) else none) with
    | some (lastc, rest') => removeIndicatorsGo inds fuel (some lastc) rest'
    | none => c :: removeIndicatorsGo inds fuel (some c) rest

def removeIndicators (inds : List (List Char)) (cs : List Char) : List Char :=
  removeIndicatorsGo inds (cs.length + 1) none cs

/-- `EducationNormalizer._create_index`: `list(set(canonicals + variants))`.
Python's set iteration order is unspecified; first-occurrence deduplication
is the deterministic stand-in (the claims proved about the index do not
depend on its order). -/
def createIndex (mapping : List (String × List String)) : List String :=
  (mapping.foldl (fun acc cv => acc ++ cv.1 :: cv.2) []).dedup

/-- `EducationNormalizer._get_canonical`. -/
def eduGetCanonical (mapping : List (String × List String)) (variant : String) : String :=
  if variant = "" then ""
  else
    match mapping.find? (fun cv => cv.1 = variant || cv.2.contains variant) with
    | some cv => cv.1
    | none => variant

namespace EducationNormalizer

/-- The cleaning stage of `normalize_institution`: character whitelist, dot
removal, indicator removal (the latter, with its strip, only when the
indicator list is non-empty, as in the source). -/
def cleanedName (en : EducationNormalizer) (name : String) : List Char :=
  let c1 := (cleanInstChars name.data).filter (fun c => c ≠ '.')
  if en.institutionIndicators ≠ [] then
    pyStrip (removeIndicators (en.institutionIndicators.map (·.data)) c1)
  else c1

/-- `EducationNormalizer.normalize_institution`. -/
def normalize_institution (en : EducationNormalizer) (name : String) : String :=
  if name = "" then "Unknown"
  else
    let cleanName := cleanedName en name
    if cleanName = [] then "Unknown"
    else
      let idx := createIndex en.institutionMapping
      if idx.contains (String.mk cleanName) then
        eduGetCanonical en.institutionMapping (String.mk cleanName)
      else
        match SkillNormalizer.extractOne en.scorer (String.mk cleanName) idx 85 with
        | some (m, _) => eduGetCanonical en.institutionMapping m
        | none => "Unknown"

end EducationNormalizer

/-! ### `EducationNormalizer.normalize`: achievement extraction (claim C10) -/

/-- An apostrophe, kept out of string literals. -/
def apos : Char := Char.ofNat 39

def achievementMarkers : List (List Char) :=
  ["achievements:".data, "accomplishments:".data, "awards:".data, "honors:".data,
   "academic achievements".data, "notable achievements".data]

def achievementIndicators : List (List Char) :=
  ["awarded".data, "received".data, "achieved".data, "earned".data, "graduated".data,
   ('d' :: 'e' :: 'a' :: 'n' :: apos :: "s list".data), "honor roll".data,
   "distinction".data, "cum laude".data, "gpa".data, "grade".data, "score".data,
   "rank".data, "medal".data, "prize".data, "scholarship".data, "fellowship".data,
   "grant".data]

def hasMarker (line : List Char) : Bool :=
  achievementMarkers.any (fun m => containsSub m (lowerList line))

def hasIndicator (line : List Char) : Bool :=
  achievementIndicators.any (fun m => containsSub m (lowerList line))

/-- `re.match(r'^\d+\.', line)`. -/
def numDotStart (cs : List Char) : Bool :=
  !(cs.takeWhile Char.isDigit).isEmpty
    && ((cs.dropWhile Char.isDigit).head? == some '.')

/-- `line.startswith('•') or line.startswith('-') or re.match(r'^\d+\.', line)`. -/
def isBulletLine (cs : List Char) : Bool :=
  (match cs with
   | c :: _ => c = '•' || c = '-'
   | [] => false) || numDotStart cs

/-- `line.lstrip('•- ')`. -/
def lstripBullets (cs : List Char) : List Char :=
  cs.dropWhile (fun c => c = '•' || c = '-' || c = ' ')

structure AchState where
  achievements : List String
  achievementLines : List String
  inAchievements : Bool

/-- One iteration of the `for line in description_lines` loop. -/
def stepDescLine (st : AchState) (line0 : List Char) : AchState :=
  let line := pyStrip line0
  if line = [] then st
  else if hasMarker line then { st with inAchievements := true }
  else if isBulletLine line then
    let a := pyStrip (lstripBullets line)
    if a ≠ [] then { st with achievements := st.achievements ++ [String.mk a] }
    else if st.inAchievements then
      { st with achievements := st.achievements ++ [String.mk line] }
    else { st with achievementLines := st.achievementLines ++ [String.mk line] }
  else if st.inAchievements then
    { st with achievements := st.achievements ++ [String.mk line] }
  else { st with achievementLines := st.achievementLines ++ [String.mk line] }

def defaultAchievement : String := "Successfully completed coursework and requirements"

/-- Lines 237–282 of `EducationNormalizer.normalize`: the achievements list
and the retained description lines extracted from one entry's description. -/
def extractAchievements (desc : String) :
    List String × List String :=
  let st := (splitOnChar '\n' desc.data).foldl stepDescLine ⟨[], [], false⟩
  let ach1 :=
    if st.achievements = [] then
      st.achievementLines.filter (fun l => hasIndicator l.data)
    else st.achievements
  (if ach1 = [] then [defaultAchievement] else ach1, st.achievementLines)

/-- An education entry as consumed by `EducationNormalizer.normalize`
(`entry.get(...)` with empty-string defaults). -/
structure EduEntry where
  institution : String
  degree : String
  field_of_study : String
  start_date : String
  end_date : String
  description : String

structure EduOut where
  institution : String
  degree : String
  field_of_study : String
  start_date : String
  end_date : String
  description : String
  achievements : List String
deriving DecidableEq

/-- Zero-padded decimal rendering. -/
def padNat (n width : Nat) : List Char :=
  let ds := Nat.toDigits 10 n
  List.replicate (width - ds.length) '0' ++ ds

/-- `dt.strftime("%Y-%m-%d")`. -/
def formatISO (d : Date) : String :=
  String.mk (padNat d.year.toNat 4 ++ '-' :: padNat d.month.toNat 2 ++ '-' :: padNat d.day.toNat 2)

def eduDateFormats : List String := ["%Y-%m-%d", "%Y/%m/%d", "%B %Y", "%b %Y", "%Y"]

/-- `parse_date` inside `EducationNormalizer.normalize_dates`: first format
accepted by `strptime` on the stripped string wins and is re-rendered as
ISO; otherwise the original string passes through. -/
def parse_date (strp : String → String → Option Date) (s : String) : Option String :=
  if s = "" then none
  else
    match (eduDateFormats.map (fun fmt => strp fmt (pyStripS s))).foldr
        (fun r acc => match r with | some d => some d | none => acc) none with
    | some d => some (formatISO d)
    | none => some s

namespace EducationNormalizer

/-- `EducationNormalizer.normalize` (achievement extraction, date
normalization and field passthrough), with `strptime` as a parameter. -/
def normalize (strp : String → String → Option Date) (entries : List EduEntry) :
    List EduOut :=
  entries.map (fun e =>
    let r := extractAchievements e.description
    { institution := e.institution
      degree := e.degree
      field_of_study := e.field_of_study
      start_date := (parse_date strp e.start_date).getD ""
      end_date := (parse_date strp e.end_date).getD ""
      description := String.mk (joinWith '\n' (r.2.map String.data))
      achievements := r.1 })

end EducationNormalizer

/-! ## SectionDetector (src/parsing_engine/section_detector.py)

A configured pattern carries its source string (used verbatim for the
exact-match stage) and its compiled regex search as an abstract predicate
(regex compilation is delegated to Python's `re`).  The `font_size`
parameter of `_match_section_heading` is modelled as received.  In the
content-blocks fallback, `current_section` is *not* reset after the raw
pass, and indexing `sections[current_section]` can raise a `KeyError`;
that is modelled with `Except`. -/

structure SectionPattern where
  src : String
  search : String → Bool

structure SectionRules where
  sections : List (String × List SectionPattern)
  threshold : ℚ
  minHeadingSize : ℚ

/-- The hard-coded `common_sections` table, in source order. -/
def commonSections : List (String × List String) :=
  [("experience", ["experience", "work experience", "professional experience",
      "employment history"]),
   ("education", ["education", "academic background", "educational background",
      "academic qualifications"]),
   ("skills", ["technical skills", "skills", "core competencies", "professional skills"]),
   ("projects", ["technical projects", "projects", "project experience", "key projects"]),
   ("certifications", ["certifications", "certificates", "professional certifications"]),
   ("summary", ["summary", "professional summary", "profile", "objective"])]

/-- Python `str.isupper` (ASCII letters as the cased characters). -/
def pyIsUpper (cs : List Char) : Bool :=
  cs.any Char.isAlpha && cs.all (fun c => !c.isAlpha || c.isUpper)

/-- `text.rstrip(':')`. -/
def rstripColon (cs : List Char) : List Char :=
  (cs.reverse.dropWhile (fun c => c = ':')).reverse

/-- Stage 1: exact match against `common_sections`. -/
def exactCommon (textLower : String) : Option String :=
  (commonSections.find?
    (fun sp => sp.2.any (fun p => String.mk (lowerList p.data) = textLower))).map (·.1)

/-- Stage 2: exact match against the configured patterns' source strings. -/
def exactConfig (rules : SectionRules) (textLower : String) : Option String :=
  (rules.sections.find?
    (fun sp => sp.2.any (fun p => String.mk (lowerList p.src.data) = textLower))).map (·.1)

/-- Stage 3 bookkeeping: per-section count of matching compiled patterns,
sections in configuration order, zero-count sections omitted (the
`confidence_scores` dict). -/
def confidenceScores (rules : SectionRules) (text : String) : List (String × Nat) :=
  rules.sections.filterMap (fun sp =>
    let c := (sp.2.filter (fun p => p.search text)).length
    if c = 0 then none else some (sp.1, c))

/-- `max(confidence_scores.items(), key=lambda x: x[1])`: first maximum in
iteration order. -/
def bestScore : List (String × Nat) → Option (String × Nat)
  | [] => none
  | x :: rest => some (rest.foldl (fun b y => if y.2 > b.2 then y else b) x)

/-- Stage 3: accept the best-scoring section when its matched fraction
reaches the confidence threshold. -/
def confStage (rules : SectionRules) (text : String) : Option String :=
  match bestScore (confidenceScores rules text) with
  | some (sec, c) =>
    let n := ((rules.sections.find? (fun sp => sp.1 = sec)).map
      (fun sp => sp.2.length)).getD 0
    if rules.threshold ≤ (c : ℚ) / (n : ℚ) then some sec else none
  | none => none

/-- Stage 4: the colon / upper-case special case, matching headings as
substrings of the cleaned text. -/
def specialStage (rules : SectionRules) (text : List Char) : Option String :=
  if (text.getLast? == some ':') || pyIsUpper text then
    let textClean := lowerList (rstripColon text)
    match commonSections.find?
        (fun sp => sp.2.any (fun p => containsSub (lowerList p.data) textClean)) with
    | some sp => some sp.1
    | none =>
      (rules.sections.find?
        (fun sp => sp.2.any (fun p => containsSub (lowerList p.src.data) textClean))).map (·.1)
  else none

namespace SectionDetector

/-- `SectionDetector._match_section_heading`.  The `fontSize` argument is
carried exactly as in the source, which never reads it. -/
def match_section_heading (rules : SectionRules) (text : String) (_fontSize : ℚ) :
    Option String :=
  if text = "" then none
  else
    let textLower := String.mk (lowerList text.data)
    match exactCommon textLower with
    | some s => some s
    | none =>
      match exactConfig rules textLower with
      | some s => some s
      | none =>
        match confStage rules text with
        | some s => some s
        | none => specialStage rules text.data

end SectionDetector

structure Block where
  text : String
deriving DecidableEq

instance {ε α : Type} [DecidableEq ε] [DecidableEq α] : DecidableEq (Except ε α) :=
  fun x y =>
    match x, y with
    | .error a, .error b =>
      if h : a = b then .isTrue (congrArg Except.error h)
      else .isFalse (fun he => h (Except.error.inj he))
    | .ok a, .ok b =>
      if h : a = b then .isTrue (congrArg Except.ok h)
      else .isFalse (fun he => h (Except.ok.inj he))
    | .error _, .ok _ => .isFalse (fun he => Except.noConfusion he)
    | .ok _, .error _ => .isFalse (fun he => Except.noConfusion he)

structure Document where
  raw_text : String
  content : List Block

structure SectionData where
  content : String
  blocks : List Block
deriving DecidableEq

/-- Ordered-dict write `sections[k] = v` (replace in place or append). -/
def setSec : List (String × SectionData) → String → SectionData → List (String × SectionData)
  | [], k, v => [(k, v)]
  | (k', v') :: rest, k, v =>
    if k' = k then (k, v) :: rest else (k', v') :: setSec rest k v

def getSec (secs : List (String × SectionData)) (k : String) : Option SectionData :=
  (secs.find? (fun kv => kv.1 = k)).map (·.2)

/-- `sections[key]["content"] += extra`, `none` when the key is absent
(Python `KeyError`). -/
def appendContent : List (String × SectionData) → String → String →
    Option (List (String × SectionData))
  | [], _, _ => none
  | (k, v) :: rest, key, extra =>
    if k = key then some ((k, { v with content := v.content ++ extra }) :: rest)
    else (appendContent rest key extra).map (fun r => (k, v) :: r)

/-- `if block not in sections[key]["blocks"]: append` (key known present). -/
def appendBlockIfNew : List (String × SectionData) → String → Block →
    List (String × SectionData)
  | [], _, _ => []
  | (k, v) :: rest, key, blk =>
    if k = key then
      (k, { v with blocks := if blk ∈ v.blocks then v.blocks else v.blocks ++ [blk] }) :: rest
    else (k, v) :: appendBlockIfNew rest key blk

structure DetectState where
  sections : List (String × SectionData)
  currentSection : Option String
  currentContent : List String

/-- `sections[current_section]["content"] = "\n".join(current_content)`
(performed when a new heading is found and at the end of the raw pass). -/
def saveCurrent (st : DetectState) : List (String × SectionData) :=
  match st.currentSection with
  | some cs =>
    if st.currentContent ≠ [] then
      match getSec st.sections cs with
      | some sd =>
        setSec st.sections cs
          { sd with content := String.mk (joinWith '\n' (st.currentContent.map String.data)) }
      | none => st.sections
    else st.sections
  | none => st.sections

/-- One iteration of the raw-text `while i < len(lines)` loop.  In the
non-heading branch the source's skills-indicator conditional appends the
line in both of its arms, so it is a plain append. -/
def rawStep (rules : SectionRules) (st : DetectState) (line0 : String) : DetectState :=
  let line := pyStripS line0
  if line = "" then st
  else
    match SectionDetector.match_section_heading rules line rules.minHeadingSize with
    | some sec =>
      let secs1 := saveCurrent st
      let secs2 := setSec secs1 sec ⟨"", []⟩
      { sections := secs2, currentSection := some sec,
        currentContent := if sec = "skills" then [line] else [] }
    | none =>
      match st.currentSection with
      | some _ => { st with currentContent := st.currentContent ++ [line] }
      | none => st

/-- `sections["contact"]` seeded from the first five lines. -/
def contactInit (lines : List String) : List (String × SectionData) :=
  let contactLines := ((lines.take 5).map pyStripS).filter (fun l => l ≠ "")
  if contactLines ≠ [] then
    [("contact", ⟨String.mk (joinWith '\n' (contactLines.map String.data)), []⟩)]
  else []

/-- One stripped line of one block in the content-blocks fallback. -/
def blockLine (rules : SectionRules) (blk : Block)
    (st : List (String × SectionData) × Option String) (lineCs : List Char) :
    Except Unit (List (String × SectionData) × Option String) :=
  let line := pyStrip lineCs
  if line = [] then .ok st
  else
    match SectionDetector.match_section_heading rules (String.mk line) rules.minHeadingSize with
    | some sec =>
      let secs :=
        if (st.1.find? (fun kv => kv.1 = sec)).isSome then st.1
        else st.1 ++ [(sec, ⟨"", []⟩)]
      if sec = "skills" then
        match appendContent secs sec (String.mk (line ++ ['\n'])) with
        | some secs2 => .ok (secs2, some sec)
        | none => .error ()
      else .ok (secs, some sec)
    | none =>
      match st.2 with
      | some cs =>
        match appendContent st.1 cs (String.mk (line ++ ['\n'])) with
        | some secs2 => .ok (appendBlockIfNew secs2 cs blk, some cs)
        | none => .error ()
      | none => .ok st

def blockStep (rules : SectionRules) (st : List (String × SectionData) × Option String)
    (blk : Block) : Except Unit (List (String × SectionData) × Option String) :=
  let text := pyStrip blk.text.data
  if text = [] then .ok st
  else
    (splitOnChar '\n' text).foldl
      (fun eacc lineCs =>
        Except.bind eacc (fun st => blockLine rules blk st lineCs))
      (Except.ok st)

def blocksPass (rules : SectionRules) (cur0 : Option String) (blocks : List Block) :
    Except Unit (List (String × SectionData)) :=
  (blocks.foldl
    (fun eacc blk => Except.bind eacc (fun st => blockStep rules st blk))
    (Except.ok ([], cur0))).map (·.1)

namespace SectionDetector

/-- `SectionDetector.detect_sections` (the `sections` component of the
returned dictionary). -/
def detect_sections (rules : SectionRules) (doc : Document) :
    Except Unit (List (String × SectionData)) :=
  let lines := (splitOnChar '\n' doc.raw_text.data).map String.mk
  let st := (lines.drop 5).foldl (rawStep rules) ⟨contactInit lines, none, []⟩
  let secs1 := saveCurrent st
  if secs1.isEmpty || !(secs1.any (fun kv => pyStrip kv.2.content.data ≠ [])) then
    match blocksPass rules st.currentSection doc.content with
    | .ok secs2 =>
      if secs2.isEmpty then .ok [("content", ⟨doc.raw_text, doc.content⟩)]
      else .ok secs2
    | .error e => .error e
  else .ok secs1

end SectionDetector

def emptyRules : SectionRules := ⟨[], (1 : ℚ) / 2, 10⟩

/-- The environment used for concrete date evaluations: `dateparser`
declines every input and `strptime` accepts none of the formats. -/
def dnEnv0 : DNEnv := ⟨fun _ => none, fun _ _ => none, ⟨2026, 10, 12⟩⟩

/-- A scorer granting a fixed score to one query/candidate pair. -/
def pairScorer (q c : String) (v : Nat) : String → String → Nat :=
  fun q' c' => if q' = q ∧ c' = c then v else 0

def snAccept : SkillNormalizer := ⟨[("Python", ["Py"])], [], 80, pairScorer "Pythn" "Python" 80⟩
def snReject : SkillNormalizer := ⟨[("Python", ["Py"])], [], 80, pairScorer "Pythn" "Python" 79⟩
def enAccept : EducationNormalizer := ⟨[("MIT", ["Tech"])], [], pairScorer "XYZ" "MIT" 85⟩
def enReject : EducationNormalizer := ⟨[("MIT", ["Tech"])], [], pairScorer "XYZ" "MIT" 84⟩

instance (d : Date) : Decidable d.valid := by
  unfold Date.valid
  infer_instance

/-! ### `ExperienceNormalizer.normalize_title` and `_match_entity`
(src/normalization/experience_normalizer.py)

The title-abbreviation table, the two mappings and the two thresholds are
data parameters (Python reads them from YAML/JSON at construction time);
the `rapidfuzz` scorer is abstract as for the other normalizers.  The
abbreviation passes build regexes `\b{pattern}\b` by raw insertion of the
abbreviation text, so their semantics are embedded per character: in the
compound pass each space becomes `\s+` and a period stays the regex
wildcard `.`; in the single-word pass each period becomes the optional
literal `\.?`; every other character is literal (title abbreviations
contain no other regex metacharacter). -/

/-- One token of a compiled `\b{abbreviation}\b` pattern: a literal
character (matched case-insensitively, `re.IGNORECASE`), the optional
period `\.?`, the whitespace run `\s+`, or the wildcard `.`. -/
inductive AbbrItem where
  | lit (c : Char)
  | optDot
  | ws
  | wild
deriving DecidableEq, Repr

/-- `abbrev.replace(" ", "\\s+")` of the compound pass: spaces become
`\s+`, periods are left as the regex wildcard. -/
def compileCompound (cs : List Char) : List AbbrItem :=
  cs.map (fun c =>
    if c = ' ' then AbbrItem.ws
    else if c = '.' then AbbrItem.wild
    else AbbrItem.lit c)

/-- `abbrev.replace(".", "\\.?")` of the single-word pass: periods become
optional. -/
def compileSingle (cs : List Char) : List AbbrItem :=
  cs.map (fun c => if c = '.' then AbbrItem.optDot else AbbrItem.lit c)

def isWordO : Option Char → Bool
  | some c => isWordChar c
  | none => false

/-- The regex word boundary `\b` between two adjacent positions of the
text: exactly one side is a word character. -/
def isBoundary (a b : Option Char) : Bool := isWordO a != isWordO b

/-- Every way the compiled pattern can match a prefix of the text, as the
list of remaining suffixes in the regex engine's backtracking preference
order (greedy `\.?` and `\s+` alternatives first); the scanner keeps the
first one that ends at a word boundary.  The fuel dominates
`items.length + text.length`. -/
def matchItems : Nat → List AbbrItem → List Char → List (List Char)
  | 0, _, _ => []
  | _ + 1, [], cs => [cs]
  | fuel + 1, AbbrItem.lit c :: its, d :: cs =>
    if lowerChar d = lowerChar c then matchItems fuel its cs else []
  | _ + 1, AbbrItem.lit _ :: _, [] => []
  | fuel + 1, AbbrItem.optDot :: its, cs =>
    (match cs with
     | '.' :: cs' => matchItems fuel its cs'
     | _ => []) ++ matchItems fuel its cs
  | fuel + 1, AbbrItem.ws :: its, d :: cs =>
    if isPySpace d then
      matchItems fuel (AbbrItem.ws :: its) cs ++ matchItems fuel its cs
    else []
  | _ + 1, AbbrItem.ws :: _, [] => []
  | fuel + 1, AbbrItem.wild :: its, d :: cs =>
    if d = '\n' then [] else matchItems fuel its cs
  | _ + 1, AbbrItem.wild :: _, [] => []

/-- `re.sub(rf'\b{pattern}\b', repl, s, flags=re.IGNORECASE)` for a
compiled abbreviation pattern: scan left to right, tracking the previous
text character for the `\b` assertions; at a position opening a word
boundary, splice in the replacement for the pattern's preferred match that
also ends at a word boundary, and resume after the matched text (the
replacement is not rescanned; after a zero-width match one character is
copied over, as in Python 3.7+). -/
def subItemsGo (its : List AbbrItem) (repl : List Char) :
    Nat → Option Char → List Char → List Char
  | 0, _, cs => cs
  | _ + 1, prev, [] =>
    if isBoundary prev none && !(matchItems (its.length + 1) its []).isEmpty
    then repl else []
  | fuel + 1, prev, c :: rest =>
    match (if isBoundary prev (some c) then
             (matchItems (its.length + (c :: rest).length + 1) its
                 (c :: rest)).find?
               (fun rem =>
                 let consumed := (c :: rest).take ((c :: rest).length - rem.length)
                 isBoundary (if consumed.isEmpty then prev else consumed.getLast?)
                   rem.head?)
           else none) with
    | some rem =>
      if rem.length = (c :: rest).length then
        repl ++ c :: subItemsGo its repl fuel (some c) rest
      else
        repl ++ subItemsGo its repl fuel
          (((c :: rest).take ((c :: rest).length - rem.length)).getLast?) rem
    | none => c :: subItemsGo its repl fuel (some c) rest

def subItems (its : List AbbrItem) (repl cs : List Char) : List Char :=
  subItemsGo its repl (cs.length + 1) none cs

/-- The abbreviation-expansion stage of `normalize_title`: one `re.sub`
pass per compound abbreviation (those containing a space) over the title,
then one pass per single-word abbreviation over the result, each pass
rewriting the previous pass's output as in the source's two `for` loops. -/
def expandTitle (abbrevPairs : List (String × String)) (title : String) : String :=
  let p1 := abbrevPairs.foldl
    (fun acc af =>
      if af.1.data.contains ' ' then
        subItems (compileCompound af.1.data) af.2.data acc
      else acc)
    title.data
  let p2 := abbrevPairs.foldl
    (fun acc af =>
      if af.1.data.contains ' ' then acc
      else subItems (compileSingle af.1.data) af.2.data acc)
    p1
  String.mk p2

/-- The configuration of `ExperienceNormalizer`: the two entity mappings
(`title_mapping` and `position_mapping` are loaded from the same titles
file, so one field stands for both), the title-abbreviation pairs, the two
fuzzy thresholds (defaults 85 and 90) and the `fuzz.WRatio` scorer. -/
structure ExperienceNormalizer where
  companyMapping : List (String × List String)
  titleMapping : List (String × List String)
  titleAbbrevs : List (String × String)
  companyThreshold : Nat
  titleThreshold : Nat
  scorer : String → String → Nat

namespace ExperienceNormalizer

/-- `ExperienceNormalizer._get_canonical`. -/
def get_canonical (mapping : List (String × List String)) (variant : String) : String :=
  match mapping.find? (fun cv => cv.1 = variant || cv.2.contains variant) with
  | some cv => cv.1
  | none => variant

/-- `ExperienceNormalizer._match_entity(text, mapping)`; `isCompany` is the
identity test `mapping is self.company_mapping`, False at both
`normalize_title` call sites (they pass `title_mapping`).  The exact-match
stage always consults the company index, whatever the mapping; the fuzzy
pool for titles is the position index, built from the same titles file as
`title_mapping`. -/
def match_entity (xn : ExperienceNormalizer) (isCompany : Bool) (text : String) :
    Option String :=
  let mapping := cond isCompany xn.companyMapping xn.titleMapping
  let thr := cond isCompany xn.companyThreshold xn.titleThreshold
  let pool := createIndex (cond isCompany xn.companyMapping xn.titleMapping)
  if (createIndex xn.companyMapping).contains text then
    some (get_canonical mapping text)
  else
    match SkillNormalizer.extractOne xn.scorer text pool thr with
    | some m => some (get_canonical mapping m.1)
    | none => none

/-- `ExperienceNormalizer.normalize_title`: abbreviation expansion, then
entity matching of the expanded and, failing that, the original title;
when both fail the expanded title is returned. -/
def normalize_title (xn : ExperienceNormalizer) (title : String) : String :=
  if title = "" then ""
  else
    let expanded := expandTitle xn.titleAbbrevs title
    match match_entity xn false expanded with
    | some m => m
    | none =>
      match match_entity xn false title with
      | some m => m
      | none => expanded

end ExperienceNormalizer

def etAccept : ExperienceNormalizer :=
  ⟨[("Acme", [])], [("Software Engineer", ["SWE"])], [("Sr.", "Senior")], 85, 90,
    pairScorer "Senior Engineer" "Software Engineer" 90⟩
def etReject : ExperienceNormalizer :=
  ⟨[("Acme", [])], [("Software Engineer", ["SWE"])], [("Sr.", "Senior")], 85, 90,
    pairScorer "Senior Engineer" "Software Engineer" 89⟩

/-- Whether the string contains a `)`. -/
def hasClose : List Char → Bool
  | [] => false
  | c :: rest => c = ')' || hasClose rest

/-- Whether `re.search(r'\([^)]*\)', s)` would match: some `(` is followed
by a `)`. -/
def hasParenMatch : List Char → Bool
  | [] => false
  | c :: rest => (c = '(' && hasClose rest) || hasParenMatch rest

/-! ## Theorems -/

-- sanity checks against the source's behaviour, dateparser declining
example :
    DateNormalizer.normalize ⟨fun _ => none, fun _ _ => none, ⟨2026, 10, 12⟩⟩ "Q3 2021"
      = some ⟨2021, 7, 1⟩ := by decide
example :
    DateNormalizer.normalize ⟨fun _ => none, fun _ _ => none, ⟨2026, 10, 12⟩⟩ "Feb 30 2020"
      = some ⟨2020, 1, 1⟩ := by decide
example :
    DateNormalizer.normalize ⟨fun _ => none, fun _ _ => none, ⟨2026, 10, 12⟩⟩ "Sep 2020"
      = some ⟨2020, 9, 1⟩ := by decide
example :
    DateNormalizer.normalize ⟨fun _ => none, fun _ _ => none, ⟨2026, 10, 12⟩⟩ "9/2021"
      = some ⟨2021, 9, 1⟩ := by decide
example :
    DateNormalizer.normalize ⟨fun _ => none, fun _ _ => none, ⟨2026, 10, 12⟩⟩ "2024"
      = some ⟨2024, 1, 1⟩ := by decide
example :
    DateNormalizer.normalize ⟨fun _ => none, fun _ _ => none, ⟨2026, 10, 12⟩⟩ "Random text"
      = none := by decide
example :
    DateNormalizer.normalize ⟨fun _ => none, fun _ _ => none, ⟨2026, 10, 12⟩⟩ "ongoing work"
      = some ⟨2026, 10, 12⟩ := by decide

example :
    DateNormalizer.extract_period ⟨fun _ => none, fun _ _ => none, ⟨2026, 10, 12⟩⟩
      "Jan 2020 - Present" = (some ⟨2020, 1, 1⟩, some ⟨2026, 10, 12⟩) := by decide
example :
    DateNormalizer.extract_period ⟨fun _ => none, fun _ _ => none, ⟨2026, 10, 12⟩⟩
      "2019 to 2021" = (some ⟨2019, 1, 1⟩, some ⟨2021, 1, 1⟩) := by decide
example :
    DateNormalizer.extract_period ⟨fun _ => none, fun _ _ => none, ⟨2026, 10, 12⟩⟩
      "2020" = (some ⟨2020, 1, 1⟩, some ⟨2020, 1, 1⟩) := by decide

example : ExperienceNormalizer.calculate_duration ⟨2020, 1, 1⟩ ⟨2022, 1, 1⟩ = 24 := by decide
example : ExperienceNormalizer.calculate_duration ⟨2022, 1, 1⟩ ⟨2020, 1, 1⟩ = 0 := by decide
example : ExperienceNormalizer.calculate_duration ⟨2020, 1, 15⟩ ⟨2022, 1, 10⟩ = 24 := by decide
example : ExperienceNormalizer.calculate_duration ⟨2020, 1, 15⟩ ⟨2022, 1, 20⟩ = 25 := by decide
example : ExperienceNormalizer.calculate_duration ⟨2020, 1, 31⟩ ⟨2020, 2, 29⟩ = 1 := by decide
example : ExperienceNormalizer.calculate_duration ⟨2020, 2, 29⟩ ⟨2021, 2, 28⟩ = 12 := by decide

theorem Date.lt_iff (a b : Date) : a < b ↔
    (a.year < b.year ∨ (a.year = b.year ∧
      (a.month < b.month ∨ (a.month = b.month ∧ a.day < b.day)))) := Iff.rfl

theorem addMonthsClamped_eq (d : Date) (k y m : Int) (h1 : 1 ≤ m) (h2 : m ≤ 12)
    (ht : d.year * 12 + (d.month - 1) + k = y * 12 + (m - 1)) :
    addMonthsClamped d k = ⟨y, m, min d.day (daysInMonth y m)⟩ := by
  have hy : (d.year * 12 + (d.month - 1) + k) / 12 = y := by omega
  have hm : (d.year * 12 + (d.month - 1) + k) % 12 + 1 = m := by omega
  simp only [addMonthsClamped, hy, hm]

theorem relMonthsGo_succ (s e : Date) (n : Nat) (m : Int) :
    relMonthsGo s e (n + 1) m =
      if e < addMonthsClamped s m then relMonthsGo s e n (m - 1) else m := rfl

theorem relMonthsGo_succ2 (s e : Date) (n : Nat) (m : Int) :
    relMonthsGo s e (n + 2) m =
      if e < addMonthsClamped s m then relMonthsGo s e (n + 1) (m - 1) else m := rfl

/-- The `relativedelta`-based duration equals the year-month difference
formula, with one extra month when the end day exceeds the start day,
clamped to zero from below. -/
theorem calculate_duration_eq_formula (s e : Date) (hs : s.valid) (he : e.valid) :
    ExperienceNormalizer.calculate_duration s e =
      max 0 (monthDiff s e + (if s.day < e.day then 1 else 0)) := by
  obtain ⟨sy, sm, sd⟩ := s
  obtain ⟨ey, em, ed⟩ := e
  simp only [Date.valid, validDate] at hs he
  simp only [ExperienceNormalizer.calculate_duration, monthDiff]
  dsimp only
  by_cases hlt : (⟨ey, em, ed⟩ : Date) < ⟨sy, sm, sd⟩
  · rw [if_pos hlt]
    rw [Date.lt_iff] at hlt
    dsimp only at hlt
    by_cases hb : sd < ed
    · rw [if_pos hb]; omega
    · rw [if_neg hb]; omega
  · rw [if_neg hlt]
    rw [Date.lt_iff] at hlt
    dsimp only at hlt
    have hM : 0 ≤ ey * 12 + em - (sy * 12 + sm) := by omega
    have hdtm0 : addMonthsClamped ⟨sy, sm, sd⟩ (ey * 12 + em - (sy * 12 + sm)) =
        ⟨ey, em, min sd (daysInMonth ey em)⟩ := by
      have h := addMonthsClamped_eq ⟨sy, sm, sd⟩ (ey * 12 + em - (sy * 12 + sm)) ey em
        (by omega) (by omega) (by dsimp only; omega)
      dsimp only at h
      exact h
    simp only [relMonthsGo_succ2, hdtm0]
    by_cases hcond : (⟨ey, em, ed⟩ : Date) < ⟨ey, em, min sd (daysInMonth ey em)⟩
    · simp only [if_pos hcond]
      rw [Date.lt_iff] at hcond
      dsimp only at hcond
      have hed : ed < min sd (daysInMonth ey em) := by omega
      have hM1 : 1 ≤ ey * 12 + em - (sy * 12 + sm) := by omega
      have hnb : ¬ (sd < ed) := by omega
      rcases le_or_lt 2 em with hem | hem
      · have hdtm1 : addMonthsClamped ⟨sy, sm, sd⟩ (ey * 12 + em - (sy * 12 + sm) - 1) =
            ⟨ey, em - 1, min sd (daysInMonth ey (em - 1))⟩ := by
          have h := addMonthsClamped_eq ⟨sy, sm, sd⟩ (ey * 12 + em - (sy * 12 + sm) - 1)
            ey (em - 1) (by omega) (by omega) (by dsimp only; omega)
          dsimp only at h
          exact h
        have hstop : ¬ ((⟨ey, em, ed⟩ : Date) < ⟨ey, em - 1, min sd (daysInMonth ey (em - 1))⟩) := by
          rw [Date.lt_iff]; dsimp only; omega
        have hgo : (⟨ey, em - 1, min sd (daysInMonth ey (em - 1))⟩ : Date) < ⟨ey, em, ed⟩ := by
          rw [Date.lt_iff]; dsimp only; omega
        simp only [relMonthsGo_succ, hdtm1, if_neg hstop, if_pos hgo, if_neg hnb]
        omega
      · have hdtm1 : addMonthsClamped ⟨sy, sm, sd⟩ (ey * 12 + em - (sy * 12 + sm) - 1) =
            ⟨ey - 1, 12, min sd (daysInMonth (ey - 1) 12)⟩ := by
          have h := addMonthsClamped_eq ⟨sy, sm, sd⟩ (ey * 12 + em - (sy * 12 + sm) - 1)
            (ey - 1) 12 (by omega) (by omega) (by dsimp only; omega)
          dsimp only at h
          exact h
        have hstop : ¬ ((⟨ey, em, ed⟩ : Date) < ⟨ey - 1, 12, min sd (daysInMonth (ey - 1) 12)⟩) := by
          rw [Date.lt_iff]; dsimp only; omega
        have hgo : (⟨ey - 1, 12, min sd (daysInMonth (ey - 1) 12)⟩ : Date) < ⟨ey, em, ed⟩ := by
          rw [Date.lt_iff]; dsimp only; omega
        simp only [relMonthsGo_succ, hdtm1, if_neg hstop, if_pos hgo, if_neg hnb]
        omega
    · simp only [if_neg hcond]
      simp only [hdtm0]
      rw [Date.lt_iff] at hcond
      dsimp only at hcond
      by_cases hfin : (⟨ey, em, min sd (daysInMonth ey em)⟩ : Date) < ⟨ey, em, ed⟩
      · simp only [if_pos hfin]
        rw [Date.lt_iff] at hfin
        dsimp only at hfin
        by_cases hb : sd < ed
        · simp only [if_pos hb]; omega
        · simp only [if_neg hb]; omega
      · simp only [if_neg hfin]
        rw [Date.lt_iff] at hfin
        dsimp only at hfin
        by_cases hb : sd < ed
        · simp only [if_pos hb]; omega
        · simp only [if_neg hb]; omega

example : snLabels.normalize "LANGUAGES: PYTHON" = "Languages: Python" := by decide
example : snLabels.normalize "Languages: Python" = "Python" := by decide
example : snLabels.normalize (snLabels.normalize "LANGUAGES: PYTHON")
    ≠ snLabels.normalize "LANGUAGES: PYTHON" := by decide

example : snEmpty.normalize_list ["123"] = ["123"] := by decide
example : snEmpty.normalize_list ["(q)x"] = ["x"] := by decide
example : snEmpty.normalize_list ["Python", "java", "Python"] = ["Python", "java"] := by decide
example : snEmpty.normalize_list ["Languages: C++, SQL"] = ["C++", "SQL"] := by decide
example : snEmpty.normalize_list ["b", "and"] = [] := by decide

example :
    EducationNormalizer.normalize_institution ⟨[("MIT", ["M.I.T."])], [], zeroScorer⟩ "M.I.T."
      = "MIT" := by decide
example :
    EducationNormalizer.normalize_institution ⟨[("MIT", [])], [], zeroScorer⟩ "Acme School"
      = "Unknown" := by decide

example :
    (EducationNormalizer.normalize (fun _ _ => none)
      [⟨"MIT", "BSc", "CS", "", "", "Studied things\nMore things"⟩]).map EduOut.achievements
      = [[defaultAchievement]] := by decide
example :
    (EducationNormalizer.normalize (fun _ _ => none)
      [⟨"MIT", "BSc", "CS", "", "", "Intro\n• Won prize\nOutro"⟩]).map EduOut.achievements
      = [["Won prize"]] := by decide
example :
    (EducationNormalizer.normalize (fun _ _ => none)
      [⟨"MIT", "BSc", "CS", "", "", "Awarded top marks"⟩]).map EduOut.achievements
      = [["Awarded top marks"]] := by decide

example :
    SectionDetector.match_section_heading emptyRules "education" 5 = some "education" := by
  decide
example :
    SectionDetector.detect_sections emptyRules ⟨"x", []⟩
      = .ok [("contact", ⟨"x", []⟩)] := by decide
example :
    SectionDetector.detect_sections emptyRules ⟨"", []⟩
      = .ok [("content", ⟨"", []⟩)] := by decide
example :
    SectionDetector.detect_sections emptyRules ⟨"\n\n\n\n\neducation\nMIT", []⟩
      = .ok [("education", ⟨"MIT", []⟩)] := by decide

/-! ## Claim theorems -/

/-- C1 (counterexample): loading the skill ontology from a malformed
(non-JSON) source does not return an empty mapping — `_load_ontology`
re-raises the `json.JSONDecodeError` to the caller. -/
theorem C1_skill_loader_raises :
    load_ontology SourceState.malformed = Except.error JsonError.decodeError
      ∧ load_ontology SourceState.malformed ≠ Except.ok [] := by
  constructor
  · rfl
  · intro h
    exact Except.noConfusion h

/-- C1 (amended): `EducationNormalizer._load_mapping` fails softly — a
missing or malformed source yields an empty mapping and never raises —
and `SkillNormalizer._load_ontology` yields an empty mapping for a missing
source but re-raises the JSON decode error for a malformed one. -/
theorem C1_load_fails_softly :
    load_mapping SourceState.missing = []
      ∧ load_mapping SourceState.malformed = []
      ∧ load_ontology SourceState.missing = Except.ok []
      ∧ load_ontology SourceState.malformed = Except.error JsonError.decodeError :=
  ⟨rfl, rfl, rfl, rfl⟩

/-- C2 (counterexample): `"Feb 30 2020"` does not normalize to `None` — the
bare-year fallback pattern produces 2020-01-01 (here with the delegated
natural-language parser declining, as it does for an invalid calendar
date). -/
theorem C2_feb30_not_none :
    DateNormalizer.normalize dnEnv0 "Feb 30 2020" = some ⟨2020, 1, 1⟩
      ∧ DateNormalizer.normalize dnEnv0 "Feb 30 2020" ≠ none := by
  constructor
  · decide
  · decide

theorem parseWithFormats_none (env : DNEnv) (s : String)
    (h : ∀ fmt ∈ dateFormats, env.strp fmt s = none) :
    parseWithFormats env s = none := by
  have h1 := h "%Y-%m-%d" (by simp [dateFormats])
  have h2 := h "%d-%m-%Y" (by simp [dateFormats])
  have h3 := h "%m/%d/%Y" (by simp [dateFormats])
  have h4 := h "%B %Y" (by simp [dateFormats])
  have h5 := h "%b %Y" (by simp [dateFormats])
  have h6 := h "%Y" (by simp [dateFormats])
  simp [parseWithFormats, dateFormats, h1, h2, h3, h4, h5, h6]

/-- C2 (amended): `DateNormalizer.normalize` is total into an optional
date; a string containing `present`/`current`/`ongoing`/`now` as a whole
word (case-insensitively) yields today's date; `"Q3 2021"` yields
2021-07-01 (when the delegated parser declines it, as it does for quarter
expressions); `"Feb 30 2020"` yields 2020-01-01 via the bare-year fallback
rather than `None`, whatever the delegated parser returns; and an input
matched by no rule yields `None`. -/
theorem C2_normalize_behaviour :
    (∀ (env : DNEnv) (s : String), hasPresentWord s.data = true →
        DateNormalizer.normalize env s = some env.today)
    ∧ (∀ env : DNEnv, env.dp "Q3 2021" = none →
        DateNormalizer.normalize env "Q3 2021" = some ⟨2021, 7, 1⟩)
    ∧ (∀ env : DNEnv, DateNormalizer.normalize env "Feb 30 2020" ≠ none)
    ∧ (∀ (env : DNEnv) (s : String),
        hasPresentWord s.data = false → env.dp s = none →
        fallbackParse s.data = none →
        (∀ fmt ∈ dateFormats, env.strp fmt s = none) →
        DateNormalizer.normalize env s = none) := by
  refine ⟨?_, ?_, ?_, ?_⟩
  · intro env s h
    have hs : s ≠ "" := by
      intro he
      subst he
      exact absurd h (by decide)
    simp [DateNormalizer.normalize, hs, h]
  · intro env h
    simp only [DateNormalizer.normalize]
    rw [h]
    rfl
  · intro env h
    have hfb : fallbackParse ("Feb 30 2020".data) = some ⟨2020, 1, 1⟩ := by decide
    simp only [DateNormalizer.normalize, hfb] at h
    rw [if_neg (by decide : ¬("Feb 30 2020" = ""))] at h
    rw [if_neg (by decide : ¬(hasPresentWord ("Feb 30 2020".data) = true))] at h
    cases hdp : env.dp "Feb 30 2020" with
    | none =>
      rw [hdp] at h
      simp at h
    | some t =>
      obtain ⟨y, m, d⟩ := t
      rw [hdp] at h
      simp only [] at h
      cases hmk : mkDate y m d with
      | none =>
        rw [hmk] at h
        simp at h
      | some dt =>
        rw [hmk] at h
        simp at h
  · intro env s hp hdp hfb hfm
    by_cases hs : s = ""
    · simp [DateNormalizer.normalize, hs]
    · simp [DateNormalizer.normalize, hs, hp, hdp, hfb,
        parseWithFormats_none env s hfm]

/-- C2 (witness). -/
theorem C2_normalize_behaviour_witness :
    DateNormalizer.normalize dnEnv0 "work is ongoing" = some dnEnv0.today
      ∧ DateNormalizer.normalize dnEnv0 "Q3 2021" = some ⟨2021, 7, 1⟩
      ∧ DateNormalizer.normalize dnEnv0 "Feb 30 2020" ≠ none
      ∧ DateNormalizer.normalize dnEnv0 "Random text" = none :=
  ⟨C2_normalize_behaviour.1 dnEnv0 "work is ongoing" (by decide),
   C2_normalize_behaviour.2.1 dnEnv0 rfl,
   C2_normalize_behaviour.2.2.1 dnEnv0,
   C2_normalize_behaviour.2.2.2 dnEnv0 "Random text" (by decide) rfl (by decide)
     (fun _ _ => rfl)⟩

/-- C3: `extract_period` lower-cases the text, tries the four delimiter
patterns in order, and when one splits the text into exactly two halves it
normalizes each stripped half independently; when no delimiter occurs the
whole (lowered) string is normalized once and returned as both start and
end; and `extract_period("Jan 2020 - Present")` yields
`(2020-01-01, today)` (with the delegated parser declining the month-year
half, as it does). -/
theorem C3_extract_period :
    (∀ (env : DNEnv) (text : String),
        (∀ p ∈ periodDelims,
          pySplit p.1 p.2 (lowerList text.data) = [lowerList text.data]) →
        DateNormalizer.extract_period env text =
          (DateNormalizer.normalize env (String.mk (lowerList text.data)),
           DateNormalizer.normalize env (String.mk (lowerList text.data))))
    ∧ (∀ (env : DNEnv) (text : String) (a b : List Char),
        firstTwoSplit (lowerList text.data) = some (a, b) →
        DateNormalizer.extract_period env text =
          (DateNormalizer.normalize env (String.mk (pyStrip a)),
           DateNormalizer.normalize env (String.mk (pyStrip b))))
    ∧ (∀ env : DNEnv, env.dp "jan 2020" = none →
        DateNormalizer.extract_period env "Jan 2020 - Present" =
          (some ⟨2020, 1, 1⟩, some env.today)) := by
  refine ⟨?_, ?_, ?_⟩
  · intro env text h
    have h1 := h (true, "to".data) (by simp [periodDelims])
    have h2 := h (true, "-".data) (by simp [periodDelims])
    have h3 := h (false, "–".data) (by simp [periodDelims])
    have h4 := h (false, "—".data) (by simp [periodDelims])
    have hsplit : firstTwoSplit (lowerList text.data) = none := by
      simp only [firstTwoSplit, periodDelims, List.foldr]
      rw [h1, h2, h3, h4]
    simp [DateNormalizer.extract_period, hsplit]
  · intro env text a b hsplit
    simp [DateNormalizer.extract_period, hsplit]
  · intro env hdp
    have hsplit : firstTwoSplit (lowerList ("Jan 2020 - Present".data))
        = some ("jan 2020".data, "present".data) := by decide
    simp only [DateNormalizer.extract_period, hsplit]
    have hstrip1 : String.mk (pyStrip ("jan 2020".data)) = "jan 2020" := by decide
    have hstrip2 : String.mk (pyStrip ("present".data)) = "present" := by decide
    rw [hstrip1, hstrip2]
    simp only [Prod.mk.injEq]
    constructor
    · simp only [DateNormalizer.normalize]
      rw [hdp]
      rfl
    · simp only [DateNormalizer.normalize]
      rw [if_neg (by decide : ¬("present" = ""))]
      rw [if_pos (by decide : hasPresentWord ("present".data) = true)]

/-- C3 (witness). -/
theorem C3_extract_period_witness :
    DateNormalizer.extract_period dnEnv0 "2020" =
      (DateNormalizer.normalize dnEnv0 (String.mk (lowerList "2020".data)),
       DateNormalizer.normalize dnEnv0 (String.mk (lowerList "2020".data)))
    ∧ DateNormalizer.extract_period dnEnv0 "2019 to 2021" =
      (DateNormalizer.normalize dnEnv0 (String.mk (pyStrip ("2019".data))),
       DateNormalizer.normalize dnEnv0 (String.mk (pyStrip ("2021".data))))
    ∧ DateNormalizer.extract_period dnEnv0 "Jan 2020 - Present" =
      (some ⟨2020, 1, 1⟩, some dnEnv0.today) :=
  ⟨C3_extract_period.1 dnEnv0 "2020" (by decide),
   C3_extract_period.2.1 dnEnv0 "2019 to 2021" ("2019".data) ("2021".data) (by decide),
   C3_extract_period.2.2 dnEnv0 rfl⟩

-- sanity checks of the abbreviation-expansion regexes: `\bSr\.?\b` on
-- "Sr. Engineer" matches only "Sr" (the trailing `\b` fails after the
-- period), exactly as `re.sub` behaves; compound patterns run first and
-- single-word patterns rewrite their output
example : expandTitle [("Sr.", "Senior")] "Sr Engineer" = "Senior Engineer" := by decide
example : expandTitle [("Sr.", "Senior")] "Sr. Engineer" = "Senior. Engineer" := by decide
example : expandTitle [("Sr.", "Senior")] "Srx Engineer" = "Srx Engineer" := by decide
example :
    expandTitle [("Sr. SWE", "Senior SWE"), ("SWE", "Software Engineer")]
      "Sr.  SWE role" = "Senior Software Engineer role" := by decide
example : etAccept.normalize_title "Sr Engineer" = "Software Engineer" := by decide
example : etReject.normalize_title "Sr Engineer" = "Senior Engineer" := by decide

/-- C4: in the fuzzy stage (reached when the exact lookup fails), a best
candidate scoring exactly the configured threshold is accepted and its
canonical form returned, while a best candidate scoring one point below is
rejected; on rejection the skill normalizer returns the cleaned-but-
unmatched term, the title normalizer returns the abbreviation-expanded but
unmatched term (its threshold is 90, and both its expanded and original
queries must fail), and the institution normalizer returns `"Unknown"`
(its threshold is 85). -/
theorem C4_fuzzy_threshold_boundary :
    (∀ (sn : SkillNormalizer) (s m : String),
        s ≠ "" → pyStrip s.data ≠ [] →
        SkillNormalizer.lookupAssoc (SkillNormalizer.lowerIndex sn)
          (String.mk (lowerList (SkillNormalizer.clean sn s))) = none →
        SkillNormalizer.fuzzBest sn.scorer (String.mk (SkillNormalizer.clean sn s))
          (SkillNormalizer.skillIndex sn) = some (m, sn.threshold) →
        sn.normalize s = SkillNormalizer.getCanonical sn.ontology m)
    ∧ (∀ (sn : SkillNormalizer) (s m : String),
        s ≠ "" → pyStrip s.data ≠ [] → 1 ≤ sn.threshold →
        SkillNormalizer.lookupAssoc (SkillNormalizer.lowerIndex sn)
          (String.mk (lowerList (SkillNormalizer.clean sn s))) = none →
        SkillNormalizer.fuzzBest sn.scorer (String.mk (SkillNormalizer.clean sn s))
          (SkillNormalizer.skillIndex sn) = some (m, sn.threshold - 1) →
        sn.normalize s = String.mk (SkillNormalizer.clean sn s))
    ∧ (∀ (en : EducationNormalizer) (name m : String),
        name ≠ "" → EducationNormalizer.cleanedName en name ≠ [] →
        (createIndex en.institutionMapping).contains
          (String.mk (EducationNormalizer.cleanedName en name)) = false →
        SkillNormalizer.fuzzBest en.scorer
          (String.mk (EducationNormalizer.cleanedName en name))
          (createIndex en.institutionMapping) = some (m, 85) →
        en.normalize_institution name = eduGetCanonical en.institutionMapping m)
    ∧ (∀ (en : EducationNormalizer) (name m : String),
        name ≠ "" → EducationNormalizer.cleanedName en name ≠ [] →
        (createIndex en.institutionMapping).contains
          (String.mk (EducationNormalizer.cleanedName en name)) = false →
        SkillNormalizer.fuzzBest en.scorer
          (String.mk (EducationNormalizer.cleanedName en name))
          (createIndex en.institutionMapping) = some (m, 84) →
        en.normalize_institution name = "Unknown")
    ∧ (∀ (xn : ExperienceNormalizer) (title m : String),
        title ≠ "" →
        (createIndex xn.companyMapping).contains
          (expandTitle xn.titleAbbrevs title) = false →
        SkillNormalizer.fuzzBest xn.scorer (expandTitle xn.titleAbbrevs title)
          (createIndex xn.titleMapping) = some (m, xn.titleThreshold) →
        xn.normalize_title title = ExperienceNormalizer.get_canonical xn.titleMapping m)
    ∧ (∀ (xn : ExperienceNormalizer) (title m : String),
        title ≠ "" → 1 ≤ xn.titleThreshold →
        (createIndex xn.companyMapping).contains
          (expandTitle xn.titleAbbrevs title) = false →
        SkillNormalizer.fuzzBest xn.scorer (expandTitle xn.titleAbbrevs title)
          (createIndex xn.titleMapping) = some (m, xn.titleThreshold - 1) →
        (createIndex xn.companyMapping).contains title = false →
        SkillNormalizer.extractOne xn.scorer title (createIndex xn.titleMapping)
          xn.titleThreshold = none →
        xn.normalize_title title = expandTitle xn.titleAbbrevs title) := by
  refine ⟨?_, ?_, ?_, ?_, ?_, ?_⟩
  · intro sn s m hs hps hlk hfb
    simp only [SkillNormalizer.normalize, if_neg hs, if_neg hps]
    rw [hlk]
    simp only [SkillNormalizer.extractOne]
    rw [hfb]
    simp
  · intro sn s m hs hps hthr hlk hfb
    simp only [SkillNormalizer.normalize, if_neg hs, if_neg hps]
    rw [hlk]
    simp only [SkillNormalizer.extractOne]
    rw [hfb]
    have hlt : ¬ (sn.threshold ≤ sn.threshold - 1) := by omega
    simp [hlt]
  · intro en name m hn hcl hnc hfb
    simp only [EducationNormalizer.normalize_institution, if_neg hn, if_neg hcl]
    rw [if_neg (by rw [hnc]; exact Bool.false_ne_true)]
    simp only [SkillNormalizer.extractOne]
    rw [hfb]
    simp
  · intro en name m hn hcl hnc hfb
    simp only [EducationNormalizer.normalize_institution, if_neg hn, if_neg hcl]
    rw [if_neg (by rw [hnc]; exact Bool.false_ne_true)]
    simp only [SkillNormalizer.extractOne]
    rw [hfb]
    simp
  · intro xn title m ht hnc hfb
    simp only [ExperienceNormalizer.normalize_title, if_neg ht,
      ExperienceNormalizer.match_entity, Bool.cond_false]
    rw [if_neg (by rw [hnc]; exact Bool.false_ne_true)]
    simp only [SkillNormalizer.extractOne]
    rw [hfb]
    simp
  · intro xn title m ht hthr hnc hfb hnc2 heo
    simp only [ExperienceNormalizer.normalize_title, if_neg ht,
      ExperienceNormalizer.match_entity, Bool.cond_false]
    rw [if_neg (by rw [hnc]; exact Bool.false_ne_true),
      if_neg (by rw [hnc2]; exact Bool.false_ne_true)]
    rw [heo]
    simp only [SkillNormalizer.extractOne]
    rw [hfb]
    have hlt : ¬ (xn.titleThreshold ≤ xn.titleThreshold - 1) := by omega
    simp [hlt]

/-- C4 (witness). -/
theorem C4_fuzzy_threshold_boundary_witness :
    snAccept.normalize "Pythn" = "Python"
      ∧ snReject.normalize "Pythn" = "Pythn"
      ∧ enAccept.normalize_institution "XYZ" = "MIT"
      ∧ enReject.normalize_institution "XYZ" = "Unknown"
      ∧ etAccept.normalize_title "Sr Engineer" = "Software Engineer"
      ∧ etReject.normalize_title "Sr Engineer" = "Senior Engineer" := by
  refine ⟨?_, ?_, ?_, ?_, ?_, ?_⟩
  · have h := C4_fuzzy_threshold_boundary.1 snAccept "Pythn" "Python"
      (by decide) (by decide) (by decide) (by decide)
    rw [h]
    decide
  · have h := C4_fuzzy_threshold_boundary.2.1 snReject "Pythn" "Python"
      (by decide) (by decide) (by decide) (by decide) (by decide)
    rw [h]
    decide
  · have h := C4_fuzzy_threshold_boundary.2.2.1 enAccept "XYZ" "MIT"
      (by decide) (by decide) (by decide) (by decide)
    rw [h]
    decide
  · exact C4_fuzzy_threshold_boundary.2.2.2.1 enReject "XYZ" "MIT"
      (by decide) (by decide) (by decide) (by decide)
  · have h := C4_fuzzy_threshold_boundary.2.2.2.2.1 etAccept "Sr Engineer"
      "Software Engineer" (by decide) (by decide) (by decide)
    rw [h]
    decide
  · have h := C4_fuzzy_threshold_boundary.2.2.2.2.2 etReject "Sr Engineer"
      "Software Engineer" (by decide) (by decide) (by decide) (by decide)
      (by decide) (by decide)
    rw [h]
    decide

/-- C7 (counterexample): a unit whose font size (5) is below
`min_heading_size` (10), whose text does not end with a colon and is not
upper-case, still triggers a section transition — `"education"` matches the
built-in exact headings and the font-size argument is never read. -/
theorem C7_small_font_heading_matches :
    SectionDetector.match_section_heading emptyRules "education" 5 = some "education"
      ∧ (5 : ℚ) < emptyRules.minHeadingSize
      ∧ ("education".data.getLast? == some ':') = false
      ∧ pyIsUpper "education".data = false := by
  refine ⟨by decide, by norm_num [emptyRules], by decide, by decide⟩

/-- C7 (amended): heading matching ignores the font-size argument entirely
(a unit below `min_heading_size` can trigger a transition through the exact
or pattern stages); the ends-with-colon / fully-upper-case condition gates
only the final substring special case, so a unit that is not such a marker
and fails the exact matches and the confidence threshold is never
recognized as a heading. -/
theorem C7_font_size_ignored :
    (∀ (rules : SectionRules) (text : String) (s1 s2 : ℚ),
        SectionDetector.match_section_heading rules text s1 =
          SectionDetector.match_section_heading rules text s2)
    ∧ (∀ (rules : SectionRules) (text : String) (fs : ℚ),
        (text.data.getLast? == some ':') = false →
        pyIsUpper text.data = false →
        exactCommon (String.mk (lowerList text.data)) = none →
        exactConfig rules (String.mk (lowerList text.data)) = none →
        confStage rules text = none →
        SectionDetector.match_section_heading rules text fs = none) := by
  constructor
  · intro rules text s1 s2
    rfl
  · intro rules text fs hc hu hec hecf hcs
    by_cases ht : text = ""
    · simp [SectionDetector.match_section_heading, ht]
    · simp only [SectionDetector.match_section_heading, if_neg ht]
      rw [hec, hecf, hcs]
      simp only [specialStage]
      rw [if_neg (by simp [hc, hu])]

/-- C7 (witness). -/
theorem C7_font_size_ignored_witness :
    SectionDetector.match_section_heading emptyRules "hello" 3 =
        SectionDetector.match_section_heading emptyRules "hello" 30
      ∧ SectionDetector.match_section_heading emptyRules "hello" 3 = none :=
  ⟨C7_font_size_ignored.1 emptyRules "hello" 3 30,
   C7_font_size_ignored.2 emptyRules "hello" 3 (by decide) (by decide)
     (by decide) (by decide) (by decide)⟩

/-- C8 (counterexample): with an empty rule set, classification is not a
no-op putting everything in a `content` bucket — a one-line document ends
up entirely in the seeded `contact` bucket. -/
theorem C8_not_single_content_bucket :
    SectionDetector.detect_sections emptyRules ⟨"x", []⟩
        = Except.ok [("contact", ⟨"x", []⟩)]
      ∧ ("contact" : String) ≠ "content" := by
  constructor
  · decide
  · decide

/-- C8 (amended): an empty rule set does not disable classification — the
built-in common headings still trigger transitions and the first five
non-empty lines seed a `contact` bucket; a wholly unclassifiable document
(no text, no blocks) yields the single default `content` bucket rather
than an error, in which case every one of the seven extracted section keys
is absent (so the assembled Resume's collections are all empty); and
whenever `detect_sections` returns, it returns at least one bucket. -/
theorem C8_unclassifiable_document_defaults :
    SectionDetector.detect_sections emptyRules ⟨"", []⟩
        = Except.ok [("content", ⟨"", []⟩)]
    ∧ (∀ k ∈ ["contact", "summary", "skills", "education", "experience",
        "projects", "certifications"],
        getSec [("content", (⟨"", []⟩ : SectionData))] k = none)
    ∧ SectionDetector.detect_sections emptyRules ⟨"\n\n\n\n\neducation\nMIT", []⟩
        = Except.ok [("education", ⟨"MIT", []⟩)]
    ∧ (∀ (rules : SectionRules) (doc : Document) (secs : List (String × SectionData)),
        SectionDetector.detect_sections rules doc = Except.ok secs → secs ≠ []) := by
  refine ⟨by decide, by decide, by decide, ?_⟩
  intro rules doc secs h
  simp only [SectionDetector.detect_sections] at h
  split at h
  · split at h
    · split at h
      · exact fun he => by simp [he] at h
      · rename_i hne
        intro he
        subst he
        rw [Except.ok.injEq] at h
        exact hne (by simp [← h])
    · exact fun he => Except.noConfusion h
  · rename_i hcond
    intro he
    subst he
    rw [Except.ok.injEq] at h
    rw [h] at hcond
    simp at hcond

/-- C8 (witness). -/
theorem C8_unclassifiable_document_defaults_witness :
    SectionDetector.detect_sections emptyRules ⟨"", []⟩
        = Except.ok [("content", ⟨"", []⟩)]
      ∧ [(("content" : String), (⟨"", []⟩ : SectionData))] ≠ [] :=
  ⟨C8_unclassifiable_document_defaults.1,
   C8_unclassifiable_document_defaults.2.2.2 emptyRules ⟨"", []⟩
     [("content", ⟨"", []⟩)] C8_unclassifiable_document_defaults.1⟩

/-- C9: for an experience entry with both normalized dates, the stored
`duration_months` equals the year-month difference
`(end.year*12+end.month) - (start.year*12+start.month)` plus one extra
month when the end day exceeds the start day, clamped to zero from below
(so an end before the start gives 0). -/
theorem C9_duration_months (s e : Date) (hs : s.valid) (he : e.valid) :
    ExperienceNormalizer.durationField (some s) (some e) =
      some (max 0 (monthDiff s e + (if s.day < e.day then 1 else 0))) := by
  simp only [ExperienceNormalizer.durationField]
  rw [calculate_duration_eq_formula s e hs he]

/-- C9 (witness): 2020-01-01 to 2022-01-01 gives 24 months; an end before
the start gives 0. -/
theorem C9_duration_months_witness :
    ExperienceNormalizer.durationField (some ⟨2020, 1, 1⟩) (some ⟨2022, 1, 1⟩) = some 24
      ∧ ExperienceNormalizer.durationField (some ⟨2022, 1, 1⟩) (some ⟨2020, 1, 1⟩) = some 0 := by
  constructor
  · rw [C9_duration_months ⟨2020, 1, 1⟩ ⟨2022, 1, 1⟩ (by decide) (by decide)]
    decide
  · rw [C9_duration_months ⟨2022, 1, 1⟩ ⟨2020, 1, 1⟩ (by decide) (by decide)]
    decide

theorem extractAchievements_fst_ne_nil (d : String) :
    (extractAchievements d).1 ≠ [] := by
  simp only [extractAchievements]
  split
  · split
    · simp [defaultAchievement]
    · assumption
  · assumption

theorem achState_invariant (lines : List (List Char))
    (h : ∀ lc ∈ lines, hasMarker (pyStrip lc) = false
      ∧ isBulletLine (pyStrip lc) = false ∧ hasIndicator (pyStrip lc) = false) :
    ∀ st : AchState, st.achievements = [] → st.inAchievements = false →
      (∀ s ∈ st.achievementLines, hasIndicator s.data = false) →
      (lines.foldl stepDescLine st).achievements = []
        ∧ (lines.foldl stepDescLine st).inAchievements = false
        ∧ (∀ s ∈ (lines.foldl stepDescLine st).achievementLines,
            hasIndicator s.data = false) := by
  induction lines with
  | nil => intro st h1 h2 h3; exact ⟨h1, h2, h3⟩
  | cons lc rest ih =>
    intro st h1 h2 h3
    obtain ⟨hm, hb, hi⟩ := h lc (by simp)
    have hrest : ∀ lc' ∈ rest, hasMarker (pyStrip lc') = false
        ∧ isBulletLine (pyStrip lc') = false ∧ hasIndicator (pyStrip lc') = false :=
      fun lc' hmem => h lc' (by simp [hmem])
    simp only [List.foldl_cons]
    by_cases hl : pyStrip lc = []
    · have hstep : stepDescLine st lc = st := by
        simp [stepDescLine, hl]
      rw [hstep]
      exact ih hrest st h1 h2 h3
    · have hstep : stepDescLine st lc =
          { st with achievementLines := st.achievementLines ++ [String.mk (pyStrip lc)] } := by
        simp [stepDescLine, hl, hm, hb, h2]
      rw [hstep]
      apply ih hrest
      · exact h1
      · exact h2
      · intro s hs
        rcases List.mem_append.mp hs with hs | hs
        · exact h3 s hs
        · rcases List.mem_singleton.mp hs with rfl
          exact hi

/-- C10: every entry produced by `EducationNormalizer.normalize` carries a
non-empty achievements list, and when the description contains no
bullet-point line, no achievement-section marker line and no
achievement-indicator line, the fixed placeholder is substituted as the
sole achievement. -/
theorem C10_achievements_nonempty :
    (∀ (strp : String → String → Option Date) (entries : List EduEntry) (e : EduOut),
        e ∈ EducationNormalizer.normalize strp entries → e.achievements ≠ [])
    ∧ (∀ (strp : String → String → Option Date) (entry : EduEntry),
        (∀ lc ∈ splitOnChar '\n' entry.description.data,
          hasMarker (pyStrip lc) = false ∧ isBulletLine (pyStrip lc) = false
            ∧ hasIndicator (pyStrip lc) = false) →
        (EducationNormalizer.normalize strp [entry]).map EduOut.achievements
          = [[defaultAchievement]]) := by
  constructor
  · intro strp entries e he
    simp only [EducationNormalizer.normalize, List.mem_map] at he
    obtain ⟨ent, _, rfl⟩ := he
    exact extractAchievements_fst_ne_nil ent.description
  · intro strp entry h
    have hinv := achState_invariant (splitOnChar '\n' entry.description.data) h
      ⟨[], [], false⟩ rfl rfl (by intro s hs; simp at hs)
    simp only [EducationNormalizer.normalize, List.map_map, List.map_cons, List.map_nil,
      Function.comp]
    congr 1
    simp only [extractAchievements]
    rw [hinv.1]
    rw [if_pos rfl]
    rw [List.filter_eq_nil_iff.mpr (by
      intro a ha
      simp [hinv.2.2 a ha])]
    simp

/-- C10 (witness). -/
theorem C10_achievements_nonempty_witness :
    (⟨"MIT", "BSc", "CS", "", "", "Intro", ["Won prize"]⟩ : EduOut).achievements ≠ []
      ∧ (EducationNormalizer.normalize (fun _ _ => none)
          [⟨"MIT", "BSc", "CS", "", "", "Studied things"⟩]).map EduOut.achievements
          = [[defaultAchievement]] := by
  constructor
  · exact C10_achievements_nonempty.1 (fun _ _ => none)
      [⟨"MIT", "BSc", "CS", "", "", "Intro\n• Won prize"⟩]
      ⟨"MIT", "BSc", "CS", "", "", "Intro", ["Won prize"]⟩ (by decide)
  · exact C10_achievements_nonempty.2 (fun _ _ => none)
      ⟨"MIT", "BSc", "CS", "", "", "Studied things"⟩ (by decide)

/-- C6 (counterexample): `normalize_list` does not filter purely-numeric
tokens (`["123"]` survives unchanged), and parenthetical splitting can put
a single-character token into the output (`["(q)x"]` yields `["x"]`). -/
theorem C6_numeric_and_single_char_survive :
    snEmpty.normalize_list ["123"] = ["123"]
      ∧ (∀ c ∈ ("123" : String).data, c.isDigit = true)
      ∧ snEmpty.normalize_list ["(q)x"] = ["x"]
      ∧ ("x" : String).data.length = 1 := by
  refine ⟨by decide, by decide, by decide, by decide⟩

theorem mem_setInsert (l : List String) (x y : String) :
    x ∈ setInsert l y ↔ x = y ∨ x ∈ l := by
  simp only [setInsert]
  split
  · rename_i hy
    constructor
    · exact fun h => Or.inr h
    · rintro (rfl | h)
      · exact hy
      · exact h
  · simp [or_comm]

theorem nodup_setInsert (l : List String) (y : String) (h : l.Nodup) :
    (setInsert l y).Nodup := by
  simp only [setInsert]
  split
  · exact h
  · rename_i hy
    simp [List.nodup_append, h, hy]

theorem mem_foldl_setInsert (xs : List String) :
    ∀ (acc : List String) (x : String),
      x ∈ xs.foldl setInsert acc ↔ x ∈ acc ∨ x ∈ xs := by
  induction xs with
  | nil => intro acc x; simp
  | cons a xs ih =>
    intro acc x
    rw [List.foldl_cons, ih (setInsert acc a) x, mem_setInsert]
    simp [List.mem_cons]
    tauto

theorem nodup_foldl_setInsert (xs : List String) :
    ∀ acc : List String, acc.Nodup → (xs.foldl setInsert acc).Nodup := by
  induction xs with
  | nil => intro acc h; simpa using h
  | cons a xs ih =>
    intro acc h
    rw [List.foldl_cons]
    exact ih (setInsert acc a) (nodup_setInsert acc a h)

theorem mem_collect (sn : SkillNormalizer) (skills : List String) :
    ∀ (acc : List String) (x : String),
      x ∈ skills.foldl (fun acc sk => (SkillNormalizer.itemElems sn sk).foldl setInsert acc) acc
        ↔ x ∈ acc ∨ ∃ sk ∈ skills, x ∈ SkillNormalizer.itemElems sn sk := by
  induction skills with
  | nil => intro acc x; simp
  | cons a skills ih =>
    intro acc x
    rw [List.foldl_cons, ih, mem_foldl_setInsert]
    simp only [List.mem_cons]
    constructor
    · rintro ((h | h) | ⟨sk, hsk, hx⟩)
      · exact Or.inl h
      · exact Or.inr ⟨a, Or.inl rfl, h⟩
      · exact Or.inr ⟨sk, Or.inr hsk, hx⟩
    · rintro (h | ⟨sk, (rfl | hsk), hx⟩)
      · exact Or.inl (Or.inl h)
      · exact Or.inl (Or.inr hx)
      · exact Or.inr ⟨sk, hsk, hx⟩

theorem nodup_collect (sn : SkillNormalizer) (skills : List String) :
    ∀ acc : List String, acc.Nodup →
      (skills.foldl (fun acc sk => (SkillNormalizer.itemElems sn sk).foldl setInsert acc) acc).Nodup := by
  induction skills with
  | nil => intro acc h; simpa using h
  | cons a skills ih =>
    intro acc h
    rw [List.foldl_cons]
    exact ih _ (nodup_foldl_setInsert _ acc h)

/-- C6 (amended): `normalize_list` returns a duplicate-free list, sorted in
Python's string order, containing no stop-words (case-insensitively), and
its output is identical for any two permutations of the input; tokens that
are single-character or have no alphanumeric character are skipped at the
input stage, but outputs may still contain single-character tokens (from
parenthetical splitting) and purely-numeric tokens are never filtered. -/
theorem C6_normalize_list_sorted_dedup :
    ∀ (sn : SkillNormalizer) (skills : List String),
      (sn.normalize_list skills).Nodup
      ∧ List.Sorted pyLe (sn.normalize_list skills)
      ∧ (∀ s ∈ sn.normalize_list skills, String.mk (lowerList s.data) ∉ stopWords)
      ∧ (∀ skills' : List String, skills.Perm skills' →
          sn.normalize_list skills = sn.normalize_list skills') := by
  intro sn skills
  by_cases hempty : skills = []
  · subst hempty
    refine ⟨by simp [SkillNormalizer.normalize_list], by simp [SkillNormalizer.normalize_list], by simp [SkillNormalizer.normalize_list], ?_⟩
    intro skills' hperm
    rw [List.Perm.eq_nil hperm.symm]
  · have hnodup : (sn.normalize_list skills).Nodup := by
      simp only [SkillNormalizer.normalize_list, if_neg hempty]
      exact ((List.perm_insertionSort pyLe _).nodup_iff).mpr
        (List.Nodup.filter _ (nodup_collect sn skills [] List.nodup_nil))
    have hsorted : List.Sorted pyLe (sn.normalize_list skills) := by
      simp only [SkillNormalizer.normalize_list, if_neg hempty]
      exact List.sorted_insertionSort pyLe _
    refine ⟨hnodup, hsorted, ?_, ?_⟩
    · intro s hs
      simp only [SkillNormalizer.normalize_list, if_neg hempty] at hs
      have hs2 := (List.perm_insertionSort pyLe _).subset hs
      have hp := (List.mem_filter.mp hs2).2
      simpa using hp
    · intro skills' hperm
      have hempty' : skills' ≠ [] := by
        intro h
        exact hempty (List.Perm.eq_nil (h ▸ hperm))
      simp only [SkillNormalizer.normalize_list, if_neg hempty, if_neg hempty']
      have hmemc : ∀ x,
          x ∈ skills.foldl (fun acc sk => (SkillNormalizer.itemElems sn sk).foldl setInsert acc) []
            ↔ x ∈ skills'.foldl (fun acc sk => (SkillNormalizer.itemElems sn sk).foldl setInsert acc) [] := by
        intro x
        rw [mem_collect, mem_collect]
        constructor
        · rintro (h | ⟨sk, hsk, hx⟩)
          · simp at h
          · exact Or.inr ⟨sk, hperm.subset hsk, hx⟩
        · rintro (h | ⟨sk, hsk, hx⟩)
          · simp at h
          · exact Or.inr ⟨sk, hperm.symm.subset hsk, hx⟩
      have hkperm :
          (skills.foldl (fun acc sk => (SkillNormalizer.itemElems sn sk).foldl setInsert acc) []).filter
              (fun s => !(stopWords.contains (String.mk (lowerList s.data))))
            |>.Perm
          ((skills'.foldl (fun acc sk => (SkillNormalizer.itemElems sn sk).foldl setInsert acc) []).filter
              (fun s => !(stopWords.contains (String.mk (lowerList s.data))))) := by
        apply (List.perm_ext_iff_of_nodup
          (List.Nodup.filter _ (nodup_collect sn skills [] List.nodup_nil))
          (List.Nodup.filter _ (nodup_collect sn skills' [] List.nodup_nil))).mpr
        intro a
        simp only [List.mem_filter]
        rw [hmemc a]
      exact List.eq_of_perm_of_sorted
        (((List.perm_insertionSort pyLe _).trans hkperm).trans
          (List.perm_insertionSort pyLe _).symm)
        (List.sorted_insertionSort pyLe _)
        (List.sorted_insertionSort pyLe _)

/-- C6 (witness). -/
theorem C6_normalize_list_sorted_dedup_witness :
    (snEmpty.normalize_list ["Python", "java"]).Nodup
      ∧ List.Sorted pyLe (snEmpty.normalize_list ["Python", "java"])
      ∧ (∀ s ∈ snEmpty.normalize_list ["Python", "java"],
          String.mk (lowerList s.data) ∉ stopWords)
      ∧ snEmpty.normalize_list ["Python", "java"]
          = snEmpty.normalize_list ["java", "Python"] := by
  have h := C6_normalize_list_sorted_dedup snEmpty ["Python", "java"]
  exact ⟨h.1, h.2.1, h.2.2.1,
    h.2.2.2 ["java", "Python"] (List.Perm.swap "java" "Python" [])⟩

/-- C5 (counterexample): skill normalization is not idempotent — with a
category-label pattern configured and an ontology whose canonical is itself
a labelled phrase, a second normalization pass strips the label from the
first pass's canonical result and maps it to a different canonical. -/
theorem C5_normalize_not_idempotent :
    snLabels.normalize (snLabels.normalize "LANGUAGES: PYTHON")
        ≠ snLabels.normalize "LANGUAGES: PYTHON"
      ∧ snLabels.normalize "LANGUAGES: PYTHON" = "Languages: Python"
      ∧ snLabels.normalize "Languages: Python" = "Python" := by
  refine ⟨by decide, by decide, by decide⟩

theorem removeParensGo_some_no_close (cs : List Char) :
    ∀ buf, hasClose cs = false →
      removeParensGo cs (some buf) = '(' :: (buf.reverse ++ cs) := by
  induction cs with
  | nil => intro buf h; simp [removeParensGo]
  | cons c rest ih =>
    intro buf h
    simp only [hasClose, Bool.or_eq_false_iff] at h
    obtain ⟨hc, hr⟩ := h
    have hc' : ¬ (c = ')') := by simpa using hc
    simp only [removeParensGo, if_neg hc']
    rw [ih (c :: buf) hr]
    simp

theorem removeParensGo_some_close (cs : List Char) :
    ∀ buf, hasClose cs = true →
      ∃ suffix, suffix.length < cs.length
        ∧ removeParensGo cs (some buf) = removeParensGo suffix none := by
  induction cs with
  | nil => intro buf h; simp [hasClose] at h
  | cons c rest ih =>
    intro buf h
    by_cases hc : c = ')'
    · refine ⟨rest, by simp, ?_⟩
      simp [removeParensGo, hc]
    · simp only [hasClose, Bool.or_eq_true] at h
      rcases h with h | h
      · exact absurd (by simpa using h) hc
      · obtain ⟨suffix, hlen, hgo⟩ := ih (c :: buf) h
        refine ⟨suffix, by simp; omega, ?_⟩
        simp only [removeParensGo, if_neg hc]
        exact hgo

theorem no_close_no_match (cs : List Char) (h : hasClose cs = false) :
    hasParenMatch cs = false := by
  induction cs with
  | nil => rfl
  | cons c rest ih =>
    simp only [hasClose, Bool.or_eq_false_iff] at h
    simp only [hasParenMatch, Bool.or_eq_false_iff]
    exact ⟨by simp [h.2], ih h.2⟩

theorem hasParenMatch_removeParensGo (n : Nat) :
    ∀ cs : List Char, cs.length ≤ n →
      hasParenMatch (removeParensGo cs none) = false := by
  induction n with
  | zero =>
    intro cs hlen
    have : cs = [] := List.length_eq_zero.mp (Nat.le_zero.mp hlen)
    subst this
    rfl
  | succ n ih =>
    intro cs hlen
    match cs with
    | [] => rfl
    | c :: rest =>
      by_cases hc : c = '('
      · simp only [removeParensGo, if_pos hc]
        by_cases hcl : hasClose rest = true
        · obtain ⟨suffix, hslen, hgo⟩ := removeParensGo_some_close rest [] hcl
          rw [hgo]
          apply ih suffix
          simp only [List.length_cons] at hlen
          omega
        · have hcl' : hasClose rest = false := by simpa using hcl
          rw [removeParensGo_some_no_close rest [] hcl']
          simp only [List.reverse_nil, List.nil_append]
          simp only [hasParenMatch, Bool.or_eq_false_iff]
          exact ⟨by simp [hcl'], no_close_no_match rest hcl'⟩
      · simp only [removeParensGo, if_neg hc]
        simp only [hasParenMatch, Bool.or_eq_false_iff]
        refine ⟨by simp [hc], ?_⟩
        apply ih rest
        simp only [List.length_cons] at hlen
        omega

theorem hasParenMatch_removeParens (cs : List Char) :
    hasParenMatch (removeParens cs) = false :=
  hasParenMatch_removeParensGo cs.length cs (le_refl _)

theorem removeParens_of_no_match (cs : List Char) (h : hasParenMatch cs = false) :
    removeParens cs = cs := by
  induction cs with
  | nil => rfl
  | cons c rest ih =>
    simp only [hasParenMatch, Bool.or_eq_false_iff, Bool.and_eq_false_iff] at h
    obtain ⟨h1, h2⟩ := h
    by_cases hc : c = '('
    · have hcl : hasClose rest = false := by
        rcases h1 with h1 | h1
        · exact absurd (by simpa using hc) (by simpa using h1)
        · simpa using h1
      simp only [removeParens, removeParensGo, if_pos hc]
      rw [removeParensGo_some_no_close rest [] hcl]
      rw [hc]
      simp
    · simp only [removeParens, removeParensGo, if_neg hc]
      have := ih h2
      simp only [removeParens] at this
      rw [this]

theorem hasClose_sublist {l' l : List Char} (h : List.Sublist l' l) :
    hasClose l = false → hasClose l' = false := by
  induction h with
  | slnil => intro h; rfl
  | cons a h ih =>
    intro hl
    simp only [hasClose, Bool.or_eq_false_iff] at hl
    exact ih hl.2
  | cons₂ a h ih =>
    intro hl
    simp only [hasClose, Bool.or_eq_false_iff] at hl ⊢
    exact ⟨hl.1, ih hl.2⟩

theorem hasParenMatch_sublist {l' l : List Char} (h : List.Sublist l' l) :
    hasParenMatch l = false → hasParenMatch l' = false := by
  induction h with
  | slnil => intro h; rfl
  | cons a h ih =>
    intro hl
    simp only [hasParenMatch, Bool.or_eq_false_iff] at hl
    exact ih hl.2
  | cons₂ a h ih =>
    intro hl
    simp only [hasParenMatch, Bool.or_eq_false_iff, Bool.and_eq_false_iff] at hl ⊢
    refine ⟨?_, ih hl.2⟩
    rcases hl.1 with h1 | h1
    · exact Or.inl h1
    · exact Or.inr (hasClose_sublist h h1)

theorem dropWhile_sublist' (p : Char → Bool) (l : List Char) :
    List.Sublist (l.dropWhile p) l := by
  induction l with
  | nil => simp [List.dropWhile]
  | cons a l ih =>
    by_cases h : p a
    · simpa [List.dropWhile, h] using List.Sublist.cons a ih
    · simp [List.dropWhile, h]

theorem dropWhile_suffix_exists (p : Char → Bool) (l : List Char) :
    ∃ pre, pre ++ l.dropWhile p = l := by
  induction l with
  | nil => exact ⟨[], rfl⟩
  | cons a l ih =>
    by_cases h : p a
    · obtain ⟨pre, hpre⟩ := ih
      exact ⟨a :: pre, by simp [List.dropWhile, h, hpre]⟩
    · exact ⟨[], by simp [List.dropWhile, h]⟩

theorem pyStrip_sublist (cs : List Char) : List.Sublist (pyStrip cs) cs := by
  unfold pyStrip
  have h1 : List.Sublist (cs.dropWhile isPySpace) cs := dropWhile_sublist' _ cs
  have h2 : List.Sublist ((cs.dropWhile isPySpace).reverse.dropWhile isPySpace)
      (cs.dropWhile isPySpace).reverse := dropWhile_sublist' _ _
  have h3 := h2.reverse
  simp only [List.reverse_reverse] at h3
  exact h3.trans h1

theorem head?_dropWhile_not (p : Char → Bool) (l : List Char) :
    ∀ c, (l.dropWhile p).head? = some c → p c = false := by
  induction l with
  | nil => intro c hc; simp [List.dropWhile] at hc
  | cons a l ih =>
    intro c hc
    by_cases h : p a
    · rw [List.dropWhile_cons_of_pos h] at hc
      exact ih c hc
    · rw [List.dropWhile_cons_of_neg h] at hc
      simp only [List.head?_cons, Option.some.injEq] at hc
      subst hc
      simpa using h

theorem dropWhile_eq_self_of_head (p : Char → Bool) (l : List Char)
    (h : ∀ c, l.head? = some c → p c = false) : l.dropWhile p = l := by
  cases l with
  | nil => rfl
  | cons a l =>
    have := h a rfl
    rw [List.dropWhile_cons_of_neg (by simp [this])]

theorem pyStrip_idem (cs : List Char) : pyStrip (pyStrip cs) = pyStrip cs := by
  have hw : pyStrip cs = ((cs.dropWhile isPySpace).reverse.dropWhile isPySpace).reverse := rfl
  cases hwe : (cs.dropWhile isPySpace).reverse.dropWhile isPySpace with
  | nil =>
    rw [hw, hwe]
    rfl
  | cons w0 wt =>
    -- the head of `pyStrip cs` is the head of `cs.dropWhile isPySpace`
    obtain ⟨pre, hpre⟩ := dropWhile_suffix_exists isPySpace (cs.dropWhile isPySpace).reverse
    rw [hwe] at hpre
    have hrev : cs.dropWhile isPySpace = wt.reverse ++ w0 :: pre.reverse := by
      have := congrArg List.reverse hpre
      simpa [List.reverse_append] using this.symm
    have hfull : cs.dropWhile isPySpace = (w0 :: wt).reverse ++ pre.reverse := by
      rw [hrev]
      simp
    have hhead : ∀ c, ((w0 :: wt).reverse).head? = some c → isPySpace c = false := by
      intro c hc
      cases hrw : (w0 :: wt).reverse with
      | nil =>
        exact absurd (congrArg List.length hrw) (by simp)
      | cons r0 rt =>
        rw [hrw] at hc
        simp only [List.head?_cons, Option.some.injEq] at hc
        subst hc
        apply head?_dropWhile_not isPySpace cs
        rw [hfull, hrw]
        rfl
    -- first the leading dropWhile of the second strip does nothing …
    have hdw1 : ((w0 :: wt).reverse).dropWhile isPySpace = (w0 :: wt).reverse :=
      dropWhile_eq_self_of_head _ _ hhead
    -- … and neither does the trailing one
    have hdw2 : (w0 :: wt).dropWhile isPySpace = w0 :: wt := by
      apply dropWhile_eq_self_of_head
      intro c hc
      simp only [List.head?_cons, Option.some.injEq] at hc
      subst hc
      apply head?_dropWhile_not isPySpace (cs.dropWhile isPySpace).reverse
      rw [hwe]
      rfl
    rw [hw, hwe]
    unfold pyStrip
    rw [hdw1, List.reverse_reverse, hdw2]

/-- C5 (amended): with no category-label patterns configured and an empty
ontology (so that cleaning is the whole of normalization and neither the
exact nor the fuzzy stage can fire), `SkillNormalizer.normalize` is
idempotent for every scorer, threshold and input string. -/
theorem C5_normalize_idempotent_empty_ontology
    (scorer : String → String → Nat) (thr : Nat) (s : String) :
    (⟨[], [], thr, scorer⟩ : SkillNormalizer).normalize
        ((⟨[], [], thr, scorer⟩ : SkillNormalizer).normalize s)
      = (⟨[], [], thr, scorer⟩ : SkillNormalizer).normalize s := by
  have hred : ∀ t : String, (⟨[], [], thr, scorer⟩ : SkillNormalizer).normalize t =
      if t = "" then "" else if pyStrip t.data = [] then t
      else String.mk (pyStrip (removeParens t.data)) := by
    intro t
    simp [SkillNormalizer.normalize, SkillNormalizer.clean, SkillNormalizer.lowerIndex,
      SkillNormalizer.skillIndex, SkillNormalizer.lookupAssoc, SkillNormalizer.extractOne,
      SkillNormalizer.fuzzBest]
  rw [hred s, hred]
  by_cases h1 : s = ""
  · simp [h1]
  · rw [if_neg h1]
    by_cases h2 : pyStrip s.data = []
    · rw [if_pos h2, if_neg h1, if_pos h2]
    · rw [if_neg h2]
      by_cases h3 : pyStrip (removeParens s.data) = []
      · rw [h3]
        rfl
      · have hne : ¬ (String.mk (pyStrip (removeParens s.data)) = "") := by
          intro h
          exact h3 (congrArg String.data h)
        rw [if_neg hne]
        have hdata : (String.mk (pyStrip (removeParens s.data))).data
            = pyStrip (removeParens s.data) := rfl
        have hstrip : pyStrip (pyStrip (removeParens s.data))
            = pyStrip (removeParens s.data) := pyStrip_idem _
        rw [hdata, hstrip, if_neg h3]
        have hnm : hasParenMatch (pyStrip (removeParens s.data)) = false :=
          hasParenMatch_sublist (pyStrip_sublist _) (hasParenMatch_removeParens s.data)
        rw [removeParens_of_no_match _ hnm, hstrip]
